import Mathlib

/-!
# storage_t: small-buffer / reference-counted storage handle

Shallow embedding of `src/function/detail/storage.hpp` (`signaler::detail::storage_t`),
followed by a model of the dispatch registry of `signal.hpp`, which `main.cpp` uses and
which is not among the sources (namespace `signals`, modelled from the specification).

Modelling conventions

* The heap is a list of control blocks, the address of a block is its index.  `new`
  appends a block at a fresh address, `delete` turns the block into `freed`; an
  address is never handed out twice, so every access through a dangling pointer is
  seen as such.
* A `void*` is an `Option Nat`: `none` is `nullptr`, `some a` is the address `a`.
* `storage_t` objects live in an object table; an object is named by its index,
  which plays the role of `this` / of a C++ reference.  `none` in the table is an
  object whose lifetime has ended.
* Every member function is a function `world_t → ... → Option world_t`; the result
  `none` stands for undefined behaviour (use of a freed or never allocated block,
  use of an object whose lifetime has ended).
* `size_t` is 64 bits wide: `++cnt` is computed modulo `2 ^ 64`.
* Allocation failure (`std::bad_alloc`) is not modelled: `new` always succeeds.
-/

namespace signaler.detail

/-- One `std::byte`. -/
abbrev byte_t := Fin 256

/-- Number of values of `size_t`. -/
def SIZE_T_RANGE : Nat := 2 ^ 64

/-- The constant `sizeof(small_object_t)`, that is `sizeof(std::byte[16])`. -/
def SMALL_OBJECT_SIZE : Nat := 16

/-- The decayed functor `functor_t` handed to `init`, given by its object
representation; `sizeof(functor_t)` is the length of the list. -/
abbrev payload_t := List byte_t

/-- The type `storage_small_object_t`: 16 bytes of raw storage. -/
abbrev storage_small_object_t := Fin 16 → byte_t

/-- The type `storage_big_object_t`, a `void*`: `none` is `nullptr`. -/
abbrev storage_big_object_t := Option Nat

/-- A `control_block_t<T>` on the heap (`control_t::cnt` followed by the payload),
or the place of a block that has been deleted. -/
inductive block_t where
  | live (cnt : Nat) (payload : payload_t)
  | freed
  deriving DecidableEq, Repr

/-- The member `store`:
`std::variant<std::monostate, storage_small_object_t, storage_big_object_t>`;
the alternatives are named after `storage_state_t` (`INVALID`, `LOCAL`, `DYNAMIC`). -/
inductive store_t where
  | monostate
  | LOCAL (buf : storage_small_object_t)
  | DYNAMIC (p_store : storage_big_object_t)
  deriving DecidableEq

/-- Heap and object table. -/
structure world_t where
  heap : List block_t
  objs : List (Option store_t)
  deriving DecidableEq

/-- The world before anything has been constructed. -/
def world_t.empty : world_t := { heap := [], objs := [] }

/-- Read the member `store` of the object `this`; `none` when there is no such live object. -/
def load (w : world_t) (this : Nat) : Option store_t :=
  match w.objs[this]? with
  | some (some st) => some st
  | _ => none

/-- Write the member `store` of the object `this`. -/
def assign_store (w : world_t) (this : Nat) (st : store_t) : world_t :=
  { w with objs := w.objs.set this (some st) }

/-- `void destructor(void* p_store)`.  The pointer is passed by value: the two
assignments `p_store = nullptr` change the parameter only, so the function acts on
the heap alone. -/
def destructor (heap : List block_t) (p_store : storage_big_object_t) : Option (List block_t) :=
  match p_store with
  | none => some heap
  | some a =>
    match heap[a]? with
    | some (block_t.live cnt payload) =>
      if cnt = 0 then some (heap.set a block_t.freed)
      else some (heap.set a (block_t.live (cnt - 1) payload))
    | _ => none

/-- The statement `if (auto p_store = std::get_if<DYNAMIC>(&store)) destructor(*p_store);`
that opens every member function. -/
def release (w : world_t) (this : Nat) : Option world_t :=
  match load w this with
  | none => none
  | some (store_t.DYNAMIC p_store) =>
    match destructor w.heap p_store with
    | some heap => some { w with heap := heap }
    | none => none
  | some _ => some w

/-- The statement
`if (auto p_store = std::get_if<DYNAMIC>(&store)) if (*p_store != nullptr) ++static_cast<control_t*>(*p_store)->cnt;`. -/
def retain (w : world_t) (this : Nat) : Option world_t :=
  match load w this with
  | none => none
  | some (store_t.DYNAMIC (some a)) =>
    match w.heap[a]? with
    | some (block_t.live cnt payload) =>
      some { w with heap := w.heap.set a (block_t.live ((cnt + 1) % SIZE_T_RANGE) payload) }
    | _ => none
  | some _ => some w

/-- Storage for a new `storage_t` object whose member `store` is default-initialised
(`std::monostate`); the new object is `w.objs.length`. -/
def new_object (w : world_t) : world_t :=
  { w with objs := w.objs ++ [some store_t.monostate] }

/-- `storage_t() = default` and `storage_t(std::nullptr_t const)`. -/
def default_ctor (w : world_t) : Option world_t := some (new_object w)

/-- `~storage_t()`: releases a heap payload, then the lifetime of the object ends. -/
def dtor (w : world_t) (this : Nat) : Option world_t :=
  match release w this with
  | none => none
  | some w1 => some { w1 with objs := w1.objs.set this none }

/-- Body shared by `storage_t(storage_t const& s)` and `operator = (storage_t const& s)`. -/
def copy_body (w : world_t) (this s : Nat) : Option world_t :=
  match release w this with
  | none => none
  | some w1 =>
    match load w1 s with
    | none => none
    | some src => retain (assign_store w1 this src) this

/-- Body shared by `storage_t(storage_t&& s)` and `operator = (storage_t&& s)`:
`store = std::move(s.store)` copies the alternative held by `s` (raw bytes or a
raw pointer); then, for a source in the `DYNAMIC` alternative, `*p_store = nullptr`
writes a null pointer into the source and `s.store = std::monostate{}` empties it. -/
def move_body (w : world_t) (this s : Nat) : Option world_t :=
  match release w this with
  | none => none
  | some w1 =>
    match load w1 s with
    | none => none
    | some src =>
      let w2 := assign_store w1 this src
      match load w2 s with
      | none => none
      | some (store_t.DYNAMIC _) =>
        some (assign_store (assign_store w2 s (store_t.DYNAMIC none)) s store_t.monostate)
      | some _ => some w2

/-- `storage_t(storage_t const& s)`; the new object is `w.objs.length`. -/
def copy_ctor (w : world_t) (s : Nat) : Option world_t :=
  match load w s with
  | none => none
  | some _ => copy_body (new_object w) w.objs.length s

/-- `storage_t(storage_t&& s)`; the new object is `w.objs.length`. -/
def move_ctor (w : world_t) (s : Nat) : Option world_t :=
  match load w s with
  | none => none
  | some _ => move_body (new_object w) w.objs.length s

/-- `storage_t& operator = (storage_t const& s)`. -/
def copy_assign (w : world_t) (this s : Nat) : Option world_t := copy_body w this s

/-- `storage_t& operator = (storage_t&& s)`. -/
def move_assign (w : world_t) (this s : Nat) : Option world_t := move_body w this s

/-- `storage_t& operator = (std::nullptr_t const null_object)`. -/
def assign_nullptr (w : world_t) (this : Nat) : Option world_t := release w this

/-- `storage_t& operator = (int const null_object)`. -/
def assign_int (w : world_t) (this : Nat) (_null_object : Int) : Option world_t := release w this

/-- The buffer after `store = storage_small_object_t(); new (p_store) functor_t(f);`:
zero-initialised storage with the object representation of `f` at offset 0. -/
def small_buffer (f : payload_t) : storage_small_object_t := fun i => f.getD i.val 0

/-- `template<typename T> constexpr auto init(T&& f)`. -/
def init (w : world_t) (this : Nat) (f : payload_t) : Option world_t :=
  match release w this with
  | none => none
  | some w1 =>
    if f.length > SMALL_OBJECT_SIZE then
      some { heap := w1.heap ++ [block_t.live 0 f],
             objs := w1.objs.set this (some (store_t.DYNAMIC (some w1.heap.length))) }
    else
      some (assign_store w1 this (store_t.LOCAL (small_buffer f)))

/-! ## Programs: sequences of member-function calls -/

/-- One call of a special member function or of `init` on the object table. -/
inductive op_t where
  | default_ctor
  | init (this : Nat) (f : payload_t)
  | copy_ctor (s : Nat)
  | move_ctor (s : Nat)
  | copy_assign (this s : Nat)
  | move_assign (this s : Nat)
  | assign_nullptr (this : Nat)
  | assign_int (this : Nat) (null_object : Int)
  | dtor (this : Nat)

/-- Effect of one call. -/
def step (w : world_t) : op_t → Option world_t
  | op_t.default_ctor => default_ctor w
  | op_t.init this f => init w this f
  | op_t.copy_ctor s => copy_ctor w s
  | op_t.move_ctor s => move_ctor w s
  | op_t.copy_assign this s => copy_assign w this s
  | op_t.move_assign this s => move_assign w this s
  | op_t.assign_nullptr this => assign_nullptr w this
  | op_t.assign_int this v => assign_int w this v
  | op_t.dtor this => dtor w this

/-- Effect of a sequence of calls, left to right. -/
def run (w : world_t) : List op_t → Option world_t
  | [] => some w
  | op :: ops =>
    match step w op with
    | none => none
    | some w1 => run w1 ops

/-- Copy-construct one new object from each source in turn. -/
def copy_ctors (w : world_t) : List Nat → Option world_t
  | [] => some w
  | s :: ss =>
    match copy_ctor w s with
    | none => none
    | some w1 => copy_ctors w1 ss

/-- Destroy the listed objects in turn. -/
def dtors (w : world_t) : List Nat → Option world_t
  | [] => some w
  | i :: is =>
    match dtor w i with
    | none => none
    | some w1 => dtors w1 is

/-- Whether every source of a run of copy constructions is the handle `h` or one of the
copies made before it (the objects from `first` on); `n` is the size of the object table
when the run starts. -/
def sources_ok (h first : Nat) : Nat → List Nat → Bool
  | _, [] => true
  | n, s :: ss => (s == h || (decide (first ≤ s) && decide (s < n))) && sources_ok h first (n + 1) ss

/-! ## The reference-count invariant -/

/-- Whether an entry of the object table is a live handle in the `DYNAMIC` state at address `a`. -/
def refers (a : Nat) : Option store_t → Bool
  | some (store_t.DYNAMIC (some b)) => b == a
  | _ => false

/-- What an entry of the object table adds to the number of live handles at address `a`. -/
def share (a : Nat) (o : Option store_t) : Nat := if refers a o then 1 else 0

/-- Number of live handles in the `DYNAMIC` state at address `a`. -/
def sharers (w : world_t) (a : Nat) : Nat := w.objs.countP (refers a)

/-- The reference-count invariant at one entry of the object table: a live handle in
the `DYNAMIC` state points to a block that has not been freed, whose `cnt` is the
number of live handles at that block minus one. -/
def handle_ok (w : world_t) : Option store_t → Bool
  | some (store_t.DYNAMIC (some a)) =>
    match w.heap[a]? with
    | some (block_t.live cnt _) => cnt + 1 == sharers w a
    | _ => false
  | some (store_t.DYNAMIC none) => false
  | _ => true

/-- The reference-count invariant of a world. -/
def ref_inv (w : world_t) : Bool := w.objs.all (handle_ok w)

/-! ## Concrete payloads and programs used as test inputs -/

/-- Concrete payload of 17 bytes (one more than the inline buffer holds). -/
def big_payload : payload_t := List.replicate 17 0

/-- Concrete payload of 2 bytes. -/
def small_payload : payload_t := [1, 2]

/-- Reachable world used below: two handles share one heap block (count 1), a third
handle holds an inline payload. -/
def two_sharers_and_inline : List op_t :=
  [op_t.default_ctor, op_t.init 0 big_payload, op_t.copy_ctor 0,
   op_t.default_ctor, op_t.init 2 small_payload]

/-- Reachable world used below: two handles share one heap block (count 1). -/
def two_sharers : List op_t :=
  [op_t.default_ctor, op_t.init 0 big_payload, op_t.copy_ctor 0]

/-- Reachable world used below: one handle that holds an inline payload. -/
def one_inline : List op_t := [op_t.default_ctor, op_t.init 0 small_payload]

end signaler.detail

/-! ## The dispatch registry (`signal.hpp`, modelled from the spec)

`main.cpp` includes `signal.hpp` and `function.hpp`, which are not among the sources.
The registry is modelled from sections 3 and 4.3 of the specification.  Registries are
named by numbers; a system assigns a registry to every name (a registry that was never
used is empty).  A callable source is named by a number, and invoking it with `args` is
observed as the event `(id, args)`. -/

namespace signals

/-- Modelled from the spec: a slot of a registry (the class `signal` of `signal.hpp` is
missing).  A slot is a Callable Wrapper: empty, bound to a callable source (function,
object and member function, closure), or "invoke target registry with these arguments". -/
inductive slot_t where
  | empty
  | callable (id : Nat)
  | registry (target : Nat)
  deriving DecidableEq, Repr

/-- Modelled from the spec: the Dispatch Registry of `signal.hpp` (missing), "an ordered
sequence of Callable Wrappers, each identified by a Connection token".  The slots are kept
in connection order with their tokens; `next_token` is the token the next `connect`
hands out, which makes tokens "unique within a registry's lifetime". -/
structure signal_t where
  slots : List (Nat × slot_t)
  next_token : Nat
  deriving DecidableEq, Repr

/-- Modelled from the spec: a freshly constructed registry of `signal.hpp` (missing) has
no slots. -/
def signal_t.empty : signal_t := { slots := [], next_token := 0 }

/-- Modelled from the spec: `connect` of `signal.hpp` (missing) "appends it to the ordered
slot sequence; returns a Connection token uniquely identifying this slot". -/
def connect (r : signal_t) (sl : slot_t) : signal_t × Nat :=
  ({ slots := r.slots ++ [(r.next_token, sl)], next_token := r.next_token + 1 }, r.next_token)

/-- Modelled from the spec: `disconnect` of `signal.hpp` (missing) "removes the slot
associated with `token` if still present; disconnecting an already-removed or unknown
token is a no-op". -/
def disconnect (r : signal_t) (token : Nat) : signal_t :=
  { slots := r.slots.eraseP (fun e => e.1 == token), next_token := r.next_token }

/-- One call on a registry. -/
inductive reg_op_t where
  | connect (sl : slot_t)
  | disconnect (token : Nat)
  deriving DecidableEq, Repr

/-- Effect of a sequence of calls on a registry, left to right. -/
def run_ops (r : signal_t) : List reg_op_t → signal_t
  | [] => r
  | reg_op_t.connect sl :: ops => run_ops (connect r sl).1 ops
  | reg_op_t.disconnect token :: ops => run_ops (disconnect r token) ops

/-- The tokens of the slots of a registry, in connection order. -/
def tokens (r : signal_t) : List Nat := r.slots.map Prod.fst

/-- Tokens are handed out in increasing order and are all below `next_token`. -/
def tokens_ok (r : signal_t) : Prop :=
  (tokens r).Pairwise (fun t1 t2 => t1 < t2) ∧ ∀ t, t ∈ tokens r → t < r.next_token

instance (r : signal_t) : Decidable (tokens_ok r) := by
  unfold tokens_ok
  exact inferInstance

/-- A system of registries: the registry of every name. -/
abbrev system_t := Nat → signal_t

/-- The system in which no registry has been used. -/
def system_t.empty : system_t := fun _ => signal_t.empty

/-- The call `r.connect(source)` in a system; returns the new system and the token. -/
def connect_at (sys : system_t) (r : Nat) (sl : slot_t) : system_t × Nat :=
  (fun r1 => if r1 = r then (connect (sys r) sl).1 else sys r1, (connect (sys r) sl).2)

/-- The call `r.disconnect(token)` in a system. -/
def disconnect_at (sys : system_t) (r : Nat) (token : Nat) : system_t :=
  fun r1 => if r1 = r then disconnect (sys r) token else sys r1

/-- Modelled from the spec: the call operator of `signal.hpp` (missing) "iterates the slot
sequence in connection order and invokes each non-empty slot with `args`; a slot that
delegates to another registry transitively invokes that registry's own current slot
sequence at call time".  The result is the sequence of events, in order; `fuel` bounds
the depth of delegation (a delegation deeper than `fuel` contributes no event). -/
def invoke {α : Type} (sys : system_t) : Nat → Nat → α → List (Nat × α)
  | 0, _, _ => []
  | fuel + 1, r, args =>
    (sys r).slots.flatMap fun e =>
      match e.2 with
      | slot_t.empty => []
      | slot_t.callable id => [(id, args)]
      | slot_t.registry target => invoke sys fuel target args

end signals

namespace signaler.detail

/-! ## Elementary facts about the object table and the heap -/

theorem load_eq_some {w : world_t} {i : Nat} {st : store_t} :
    load w i = some st ↔ w.objs[i]? = some (some st) := by
  unfold load
  split
  · rename_i st1 h
    rw [h]
    simp
  · rename_i h
    constructor
    · intro h1
      cases h1
    · intro h1
      exact absurd h1 (h st)

theorem load_lt {w : world_t} {i : Nat} {st : store_t} (h : load w i = some st) :
    i < w.objs.length := by
  rw [load_eq_some] at h
  by_contra hn
  rw [List.getElem?_eq_none (Nat.le_of_not_lt hn)] at h
  cases h

theorem load_assign_store_self {w : world_t} {this : Nat} (st : store_t)
    (h : this < w.objs.length) : load (assign_store w this st) this = some st := by
  rw [load_eq_some]
  simp [assign_store, List.getElem?_set_self h]

theorem load_assign_store_of_ne {w : world_t} {this i : Nat} (st : store_t) (h : this ≠ i) :
    load (assign_store w this st) i = load w i := by
  unfold load assign_store
  simp [List.getElem?_set_ne h]

theorem load_new_object_self (w : world_t) :
    load (new_object w) w.objs.length = some store_t.monostate := by
  rw [load_eq_some]
  simp [new_object]

theorem load_new_object_of_lt {w : world_t} {i : Nat} (h : i < w.objs.length) :
    load (new_object w) i = load w i := by
  unfold load new_object
  simp [List.getElem?_append_left h]

theorem destructor_live {heap : List block_t} {a c : Nat} {f : payload_t}
    (h : heap[a]? = some (block_t.live c f)) :
    destructor heap (some a)
      = some (heap.set a (if c = 0 then block_t.freed else block_t.live (c - 1) f)) := by
  unfold destructor
  simp only [h]
  split <;> rfl

theorem release_dynamic {w : world_t} {this a c : Nat} {f : payload_t}
    (hl : load w this = some (store_t.DYNAMIC (some a)))
    (hb : w.heap[a]? = some (block_t.live c f)) :
    release w this
      = some { heap := w.heap.set a (if c = 0 then block_t.freed else block_t.live (c - 1) f),
               objs := w.objs } := by
  unfold release
  simp only [hl, destructor_live hb]

theorem release_not_dynamic {w : world_t} {this : Nat} {st : store_t}
    (hl : load w this = some st) (hs : ∀ a, st ≠ store_t.DYNAMIC (some a)) :
    release w this = some w := by
  unfold release
  rw [hl]
  cases st with
  | monostate => rfl
  | LOCAL buf => rfl
  | DYNAMIC p =>
    cases p with
    | none => rfl
    | some a => exact absurd rfl (hs a)

theorem heap_lt_of_some {heap : List block_t} {a : Nat} {b : block_t} (h : heap[a]? = some b) :
    a < heap.length := by
  by_contra hn
  rw [List.getElem?_eq_none (Nat.le_of_not_lt hn)] at h
  cases h

/-- The opening statement returns whenever the handle is live and does not dangle; it
leaves the object table alone and touches at most the block the handle points to. -/
theorem release_total {w : world_t} {this : Nat} {st : store_t}
    (hl : load w this = some st)
    (hs : ∀ a, st = store_t.DYNAMIC (some a) → ∃ c g, w.heap[a]? = some (block_t.live c g)) :
    ∃ w0, release w this = some w0 ∧ w0.objs = w.objs ∧ w0.heap.length = w.heap.length ∧
      ∀ b, st ≠ store_t.DYNAMIC (some b) → w0.heap[b]? = w.heap[b]? := by
  by_cases hd : ∃ a, st = store_t.DYNAMIC (some a)
  · obtain ⟨a, rfl⟩ := hd
    obtain ⟨c, g, hb⟩ := hs a rfl
    refine ⟨_, release_dynamic hl hb, rfl, by simp, ?_⟩
    intro b hne
    have hab : a ≠ b := fun h => hne (by rw [h])
    exact List.getElem?_set_ne hab
  · have hs1 : ∀ a, st ≠ store_t.DYNAMIC (some a) := fun a h => hd ⟨a, h⟩
    exact ⟨w, release_not_dynamic hl hs1, rfl, rfl, fun _ _ => rfl⟩

/-- The increment statement on a handle that points to a live block. -/
theorem retain_dynamic {w : world_t} {this a c : Nat} {f : payload_t}
    (hl : load w this = some (store_t.DYNAMIC (some a)))
    (hb : w.heap[a]? = some (block_t.live c f)) :
    retain w this
      = some (world_t.mk (w.heap.set a (block_t.live ((c + 1) % SIZE_T_RANGE) f)) w.objs) := by
  unfold retain
  simp only [hl, hb]

/-- The increment statement on a handle that holds no heap payload. -/
theorem retain_not_dynamic {w : world_t} {this : Nat} {st : store_t}
    (hl : load w this = some st) (hs : ∀ a, st ≠ store_t.DYNAMIC (some a)) :
    retain w this = some w := by
  unfold retain
  rw [hl]
  cases st with
  | monostate => rfl
  | LOCAL buf => rfl
  | DYNAMIC p =>
    cases p with
    | none => rfl
    | some a => exact absurd rfl (hs a)

theorem release_new_object (w : world_t) :
    release (new_object w) w.objs.length = some (new_object w) :=
  release_not_dynamic (load_new_object_self w) (fun a h => by cases h)

theorem assign_store_new_object (w : world_t) (st : store_t) :
    assign_store (new_object w) w.objs.length st = world_t.mk w.heap (w.objs ++ [some st]) := by
  simp [assign_store, new_object]

/-- Copy construction from a live handle that points to a live block. -/
theorem copy_ctor_dynamic {w : world_t} {s a c : Nat} {f : payload_t}
    (hl : load w s = some (store_t.DYNAMIC (some a)))
    (hb : w.heap[a]? = some (block_t.live c f)) :
    copy_ctor w s
      = some (world_t.mk (w.heap.set a (block_t.live ((c + 1) % SIZE_T_RANGE) f))
          (w.objs ++ [some (store_t.DYNAMIC (some a))])) := by
  have hs := load_lt hl
  have h1 : load (world_t.mk w.heap (w.objs ++ [some (store_t.DYNAMIC (some a))])) w.objs.length
      = some (store_t.DYNAMIC (some a)) := by
    rw [load_eq_some]
    simp
  simp only [copy_ctor, hl, copy_body, release_new_object, load_new_object_of_lt hs,
    assign_store_new_object]
  exact retain_dynamic h1 hb

/-- Copy construction from a live handle that holds no heap payload. -/
theorem copy_ctor_not_dynamic {w : world_t} {s : Nat} {src : store_t}
    (hl : load w s = some src) (hs : ∀ a, src ≠ store_t.DYNAMIC (some a)) :
    copy_ctor w s = some (world_t.mk w.heap (w.objs ++ [some src])) := by
  have hlt := load_lt hl
  have h1 : load (world_t.mk w.heap (w.objs ++ [some src])) w.objs.length = some src := by
    rw [load_eq_some]
    simp
  simp only [copy_ctor, hl, copy_body, release_new_object, load_new_object_of_lt hlt,
    assign_store_new_object]
  exact retain_not_dynamic h1 hs

/-- Two writes to the same object: the second one stays. -/
theorem assign_store_twice (w : world_t) (i : Nat) (st1 st2 : store_t) :
    assign_store (assign_store w i st1) i st2 = assign_store w i st2 := by
  simp [assign_store, List.set_set]

/-- Move construction from a live handle: the new handle takes over what the source
holds, a source in the `DYNAMIC` state becomes `std::monostate`, the heap is untouched. -/
theorem move_ctor_eq {w : world_t} {s : Nat} {src : store_t} (hl : load w s = some src) :
    move_ctor w s
      = some (match src with
          | store_t.DYNAMIC _ =>
            world_t.mk w.heap (w.objs.set s (some store_t.monostate) ++ [some src])
          | _ => world_t.mk w.heap (w.objs ++ [some src])) := by
  have hlt := load_lt hl
  have h1 : load (world_t.mk w.heap (w.objs ++ [some src])) s = some src := by
    rw [load_eq_some] at hl ⊢
    simp only []
    rw [List.getElem?_append_left hlt]
    exact hl
  simp only [move_ctor, hl, move_body, release_new_object, load_new_object_of_lt hlt,
    assign_store_new_object, h1]
  cases src with
  | monostate => rfl
  | LOCAL buf => rfl
  | DYNAMIC p =>
    simp only [assign_store_twice]
    simp only [assign_store]
    rw [List.set_append_left _ _ hlt]

/-- Move assignment between two distinct live handles, given the world after the
opening release statement. -/
theorem move_assign_eq {w w0 : world_t} {this s : Nat} {src : store_t}
    (hr : release w this = some w0) (hobjs : w0.objs = w.objs)
    (hl : load w s = some src) (hthis : this < w.objs.length) :
    move_assign w this s
      = some (match src with
          | store_t.DYNAMIC _ =>
            assign_store (assign_store w0 this src) s store_t.monostate
          | _ => assign_store w0 this src) := by
  have hl0 : load w0 s = some src := by
    rw [load_eq_some] at hl ⊢
    rw [hobjs]
    exact hl
  have h2 : load (assign_store w0 this src) s = some src := by
    by_cases hts : this = s
    · rw [← hts]
      exact load_assign_store_self _ (by rw [hobjs]; exact hthis)
    · rw [load_assign_store_of_ne _ hts]
      exact hl0
  simp only [move_assign, move_body, hr, hl0, h2, assign_store_twice]
  cases src <;> rfl

/-- The reset operators leave the object table as it is: whatever the handle held, it
holds the same alternative and the same pointer afterwards. -/
theorem reset_keeps_objs {w w1 : world_t} {this : Nat}
    (h : assign_nullptr w this = some w1) : w1.objs = w.objs := by
  unfold assign_nullptr release at h
  split at h
  · cases h
  · split at h
    · cases h
      rfl
    · cases h
  · cases h
    rfl

/-- If the opening release statement returns, the handle is live, the object table is
unchanged and the heap has the same length. -/
theorem release_some {w w0 : world_t} {this : Nat} (h : release w this = some w0) :
    this < w.objs.length ∧ w0.objs = w.objs ∧ w0.heap.length = w.heap.length := by
  unfold release at h
  split at h
  · cases h
  · rename_i p hl
    have hlt := load_lt hl
    split at h
    · rename_i heap hd
      cases h
      refine ⟨hlt, rfl, ?_⟩
      unfold destructor at hd
      split at hd
      · cases hd
        rfl
      · split at hd
        · split at hd <;> cases hd <;> simp
        · cases hd
    · cases h
  · rename_i st hl
    cases h
    exact ⟨load_lt hl, rfl, rfl⟩

/-- Destroying a handle that points to the live block `a` with count `c`. -/
theorem dtor_dynamic {w : world_t} {this a c : Nat} {f : payload_t}
    (hl : load w this = some (store_t.DYNAMIC (some a)))
    (hb : w.heap[a]? = some (block_t.live c f)) :
    dtor w this
      = some (world_t.mk (w.heap.set a (if c = 0 then block_t.freed else block_t.live (c - 1) f))
          (w.objs.set this none)) := by
  simp only [dtor, release_dynamic hl hb]

/-- A run of copy constructions whose sources all point to the live block `a`: each one
adds a handle at `a` and adds one to the count. -/
theorem copy_ctors_shares (a h first : Nat) (f : payload_t) :
    ∀ (srcs : List Nat) (w : world_t) (c : Nat),
      h < first → first ≤ w.objs.length →
      w.heap[a]? = some (block_t.live c f) →
      load w h = some (store_t.DYNAMIC (some a)) →
      (∀ i, first ≤ i → i < w.objs.length → load w i = some (store_t.DYNAMIC (some a))) →
      sources_ok h first w.objs.length srcs = true →
      c + srcs.length < 2 ^ 64 →
      ∃ w1, copy_ctors w srcs = some w1 ∧
        w1.heap[a]? = some (block_t.live (c + srcs.length) f) ∧
        w1.objs.length = w.objs.length + srcs.length ∧
        load w1 h = some (store_t.DYNAMIC (some a)) ∧
        (∀ i, first ≤ i → i < w.objs.length + srcs.length →
          load w1 i = some (store_t.DYNAMIC (some a))) := by
  intro srcs
  induction srcs with
  | nil =>
    intro w c _ _ hb hh hall _ _
    exact ⟨w, rfl, by simpa using hb, by simp, hh, by simpa using hall⟩
  | cons s ss ih =>
    intro w c hhf hfl hb hh hall hok hc
    simp only [sources_ok, Bool.and_eq_true, Bool.or_eq_true, beq_iff_eq,
      decide_eq_true_eq] at hok
    obtain ⟨hs, hrest⟩ := hok
    have hls : load w s = some (store_t.DYNAMIC (some a)) := by
      rcases hs with hs | ⟨h1, h2⟩
      · rw [hs]
        exact hh
      · exact hall s h1 h2
    have ha := heap_lt_of_some hb
    have hlen : (List.length (s :: ss)) = ss.length + 1 := rfl
    rw [hlen] at hc
    have hmod : (c + 1) % SIZE_T_RANGE = c + 1 :=
      Nat.mod_eq_of_lt (show c + 1 < SIZE_T_RANGE by unfold SIZE_T_RANGE; omega)
    have hstep := copy_ctor_dynamic hls hb
    rw [hmod] at hstep
    have hobjs : (world_t.mk (w.heap.set a (block_t.live (c + 1) f))
        (w.objs ++ [some (store_t.DYNAMIC (some a))])).objs.length = w.objs.length + 1 := by
      simp
    have hkeep : ∀ i, i < w.objs.length →
        load (world_t.mk (w.heap.set a (block_t.live (c + 1) f))
          (w.objs ++ [some (store_t.DYNAMIC (some a))])) i = load w i := by
      intro i hi
      unfold load
      simp only []
      rw [List.getElem?_append_left hi]
    obtain ⟨w1, h1, h2, h3, h4, h5⟩ :=
      ih (world_t.mk (w.heap.set a (block_t.live (c + 1) f))
          (w.objs ++ [some (store_t.DYNAMIC (some a))])) (c + 1) hhf
        (by rw [hobjs]; omega)
        (List.getElem?_set_self ha)
        (by rw [hkeep h (by omega)]; exact hh)
        (by
          intro i hi1 hi2
          rw [hobjs] at hi2
          by_cases hi : i < w.objs.length
          · rw [hkeep i hi]
            exact hall i hi1 hi
          · have : i = w.objs.length := by omega
            rw [this, load_eq_some]
            simp)
        (by rw [hobjs]; exact hrest)
        (by omega)
    refine ⟨w1, ?_, ?_, ?_, h4, ?_⟩
    · simp only [copy_ctors, hstep]
      exact h1
    · rw [h2, hlen]
      congr 2
      omega
    · rw [h3, hobjs, hlen]
      omega
    · intro i hi1 hi2
      apply h5 i hi1
      rw [hobjs]
      rw [hlen] at hi2
      omega

/-- A run of destructions of distinct handles that all point to the live block `a` with
count `c`: each one takes one off the count, the one that finds the count at 0 frees the
block; handles that are not destroyed are left alone. -/
theorem dtors_shares (a : Nat) (f : payload_t) :
    ∀ (l : List Nat) (w : world_t) (c : Nat),
      l.Nodup →
      (∀ i, i ∈ l → load w i = some (store_t.DYNAMIC (some a))) →
      w.heap[a]? = some (block_t.live c f) →
      l.length ≤ c + 1 →
      ∃ w1, dtors w l = some w1 ∧
        w1.heap[a]? = some (if l.length ≤ c then block_t.live (c - l.length) f
                            else block_t.freed) ∧
        (∀ j, j ∉ l → load w1 j = load w j) := by
  intro l
  induction l with
  | nil =>
    intro w c _ _ hb _
    exact ⟨w, rfl, by simpa using hb, fun _ _ => rfl⟩
  | cons i t ih =>
    intro w c hnd hall hb hlen
    have hli := hall i (List.mem_cons_self i t)
    have ha := heap_lt_of_some hb
    have hstep := dtor_dynamic hli hb
    have hnd1 := List.nodup_cons.mp hnd
    have hlen1 : (i :: t).length = t.length + 1 := rfl
    rw [hlen1] at hlen
    have hkeep : ∀ j, j ≠ i →
        load (world_t.mk (w.heap.set a (if c = 0 then block_t.freed else block_t.live (c - 1) f))
          (w.objs.set i none)) j = load w j := by
      intro j hj
      unfold load
      simp only []
      rw [List.getElem?_set_ne (Ne.symm hj)]
    by_cases hc : c = 0
    · have ht : t = [] := by
        apply List.eq_nil_of_length_eq_zero
        omega
      subst ht
      subst hc
      refine ⟨world_t.mk (w.heap.set a block_t.freed) (w.objs.set i none), ?_, ?_, ?_⟩
      · simp [dtors, hstep]
      · simp only []
        rw [List.getElem?_set_self ha]
        simp
      · intro j hj
        have hji : j ≠ i := by simpa using hj
        simpa using hkeep j hji
    · obtain ⟨w1, h1, h2, h3⟩ :=
        ih (world_t.mk (w.heap.set a (if c = 0 then block_t.freed else block_t.live (c - 1) f))
            (w.objs.set i none)) (c - 1) hnd1.2
          (by
            intro j hj
            have hji : j ≠ i := fun h => hnd1.1 (h ▸ hj)
            rw [hkeep j hji]
            exact hall j (List.mem_cons_of_mem i hj))
          (by
            simp only [hc, if_false]
            exact List.getElem?_set_self ha)
          (by omega)
      refine ⟨w1, ?_, ?_, ?_⟩
      · simp only [dtors, hstep]
        exact h1
      · rw [h2, hlen1]
        by_cases ht : t.length ≤ c - 1
        · have ht2 : t.length + 1 ≤ c := by omega
          simp only [ht, ht2, if_true]
          congr 2
          omega
        · have ht2 : ¬ t.length + 1 ≤ c := by omega
          simp only [ht, ht2, if_false]
      · intro j hj
        have hji : j ≠ i := fun h => hj (h ▸ List.mem_cons_self i t)
        have hjt : j ∉ t := fun h => hj (List.mem_cons_of_mem i h)
        rw [h3 j hjt, hkeep j hji]

/-! ## A bound on the count in every reachable world -/

theorem share_le_sharers {l : List (Option store_t)} {i : Nat} {o : Option store_t} (a : Nat)
    (h : l[i]? = some o) : share a o ≤ l.countP (refers a) := by
  have hi : i < l.length := by
    by_contra hn
    rw [List.getElem?_eq_none (Nat.le_of_not_lt hn)] at h
    cases h
  have h1 := List.boole_getElem_le_countP (refers a) l i hi
  rw [List.getElem?_eq_getElem hi] at h
  cases h
  exact h1

theorem sharers_set {l : List (Option store_t)} {i : Nat} {o : Option store_t} (a : Nat)
    (x : Option store_t) (h : l[i]? = some o) :
    (l.set i x).countP (refers a) + share a o = l.countP (refers a) + share a x := by
  have hi : i < l.length := by
    by_contra hn
    rw [List.getElem?_eq_none (Nat.le_of_not_lt hn)] at h
    cases h
  have h1 := List.boole_getElem_le_countP (refers a) l i hi
  have h2 := List.countP_set (refers a) l i x hi
  rw [List.getElem?_eq_getElem hi] at h
  cases h
  unfold share
  omega

theorem share_dynamic_ne {a b : Nat} (h : b ≠ a) :
    share a (some (store_t.DYNAMIC (some b))) = 0 := by
  simp [share, refers, h]

theorem share_dynamic_self (a : Nat) : share a (some (store_t.DYNAMIC (some a))) = 1 := by
  simp [share, refers]

theorem share_not_dynamic {a : Nat} {st : store_t} (h : ∀ b, st ≠ store_t.DYNAMIC (some b)) :
    share a (some st) = 0 := by
  cases st with
  | monostate => rfl
  | LOCAL buf => rfl
  | DYNAMIC p =>
    cases p with
    | none => rfl
    | some b => exact absurd rfl (h b)

/-- After the opening release statement, every live block's count is below the number
of live handles at the block even when the released handle is not counted. -/
theorem release_bound {w w0 : world_t} {this : Nat}
    (hw : ∀ a c f, w.heap[a]? = some (block_t.live c f) → c + 1 ≤ sharers w a)
    (hr : release w this = some w0) :
    ∃ st, load w this = some st ∧ w0.objs = w.objs ∧
      ∀ a c f, w0.heap[a]? = some (block_t.live c f) → c + 1 + share a (some st) ≤ sharers w a := by
  unfold release at hr
  split at hr
  · cases hr
  · rename_i p hl
    refine ⟨_, hl, ?_⟩
    cases p with
    | none =>
      simp only [destructor] at hr
      cases hr
      refine ⟨rfl, ?_⟩
      intro a c f hb
      have := hw a c f hb
      have h0 : share a (some (store_t.DYNAMIC none)) = 0 := rfl
      omega
    | some b =>
      unfold destructor at hr
      simp only [] at hr
      split at hr
      · rename_i heap hd
        split at hd
        · rename_i cb fb hbb
          have hbl := heap_lt_of_some hbb
          have hwb := hw b cb fb hbb
          cases hr
          refine ⟨rfl, ?_⟩
          intro a c f hb
          simp only [] at hb
          by_cases hab : b = a
          · subst hab
            rw [share_dynamic_self]
            split at hd
            · cases hd
              rw [List.getElem?_set_self hbl] at hb
              cases hb
            · cases hd
              rw [List.getElem?_set_self hbl] at hb
              cases hb
              omega
          · rw [share_dynamic_ne hab]
            have hb1 : w.heap[a]? = some (block_t.live c f) := by
              split at hd
              · cases hd
                rw [List.getElem?_set_ne hab] at hb
                exact hb
              · cases hd
                rw [List.getElem?_set_ne hab] at hb
                exact hb
            have := hw a c f hb1
            omega
        · cases hd
      · cases hr
  · rename_i st hnd hl
    cases hr
    refine ⟨st, hl, rfl, ?_⟩
    intro a c f hb
    have := hw a c f hb
    have h0 : share a (some st) = 0 :=
      share_not_dynamic (fun b h => hnd (some b) (by rw [h]))
    omega

theorem new_object_bound {w : world_t}
    (hw : ∀ a c f, w.heap[a]? = some (block_t.live c f) → c + 1 ≤ sharers w a) :
    ∀ a c f, (new_object w).heap[a]? = some (block_t.live c f) →
      c + 1 ≤ sharers (new_object w) a := by
  intro a c f hb
  have := hw a c f hb
  have h1 : sharers (new_object w) a = sharers w a := by
    simp [sharers, new_object, refers]
  omega

theorem retain_bound {w w1 : world_t} {this : Nat} {st : store_t}
    (hl : load w this = some st)
    (hw : ∀ a c f, w.heap[a]? = some (block_t.live c f) →
      c + 1 + share a (some st) ≤ sharers w a)
    (hr : retain w this = some w1) :
    ∀ a c f, w1.heap[a]? = some (block_t.live c f) → c + 1 ≤ sharers w1 a := by
  unfold retain at hr
  rw [hl] at hr
  split at hr
  · cases hr
  · rename_i b heq
    cases heq
    split at hr
    · rename_i cb fb hbb
      have hbl := heap_lt_of_some hbb
      cases hr
      intro a c f hb
      simp only [] at hb
      have hs : sharers (world_t.mk
          (w.heap.set b (block_t.live ((cb + 1) % SIZE_T_RANGE) fb)) w.objs) a = sharers w a := rfl
      rw [hs]
      by_cases hab : b = a
      · subst hab
        rw [List.getElem?_set_self hbl] at hb
        cases hb
        have h1 := hw b cb fb hbb
        rw [share_dynamic_self] at h1
        have h2 : (cb + 1) % SIZE_T_RANGE ≤ cb + 1 := Nat.mod_le _ _
        omega
      · rw [List.getElem?_set_ne hab] at hb
        have := hw a c f hb
        omega
    · cases hr
  · cases hr
    intro a c f hb
    have := hw a c f hb
    omega

theorem dtor_bound {w w1 : world_t} {this : Nat}
    (hw : ∀ a c f, w.heap[a]? = some (block_t.live c f) → c + 1 ≤ sharers w a)
    (hd : dtor w this = some w1) :
    ∀ a c f, w1.heap[a]? = some (block_t.live c f) → c + 1 ≤ sharers w1 a := by
  unfold dtor at hd
  split at hd
  · cases hd
  · rename_i w0 hr
    obtain ⟨st, hl, hobjs, hk⟩ := release_bound hw hr
    cases hd
    intro a c f hb
    have h1 := hk a c f hb
    rw [load_eq_some] at hl
    have h2 := sharers_set a none hl
    have h3 : share a none = 0 := rfl
    simp only [sharers, hobjs]
    simp only [sharers] at h1
    omega

theorem reset_bound {w w1 : world_t} {this : Nat}
    (hw : ∀ a c f, w.heap[a]? = some (block_t.live c f) → c + 1 ≤ sharers w a)
    (hd : release w this = some w1) :
    ∀ a c f, w1.heap[a]? = some (block_t.live c f) → c + 1 ≤ sharers w1 a := by
  obtain ⟨st, _, hobjs, hk⟩ := release_bound hw hd
  intro a c f hb
  have h1 := hk a c f hb
  simp only [sharers, hobjs]
  simp only [sharers] at h1
  omega

theorem init_bound {w w1 : world_t} {this : Nat} {g : payload_t}
    (hw : ∀ a c f, w.heap[a]? = some (block_t.live c f) → c + 1 ≤ sharers w a)
    (hd : init w this g = some w1) :
    ∀ a c f, w1.heap[a]? = some (block_t.live c f) → c + 1 ≤ sharers w1 a := by
  unfold init at hd
  split at hd
  · cases hd
  · rename_i w0 hr
    obtain ⟨st, hl, hobjs, hk⟩ := release_bound hw hr
    rw [load_eq_some] at hl
    split at hd
    · cases hd
      intro a c f hb
      simp only [] at hb
      have h2 := sharers_set a (some (store_t.DYNAMIC (some w0.heap.length))) hl
      have h4 := share_le_sharers a hl
      simp only [sharers, hobjs]
      by_cases ha : a < w0.heap.length
      · rw [List.getElem?_append_left ha] at hb
        have h1 := hk a c f hb
        simp only [sharers] at h1
        omega
      · by_cases ha2 : a = w0.heap.length
        · subst ha2
          simp at hb
          rw [share_dynamic_self] at h2
          omega
        · rw [List.getElem?_eq_none (by simp; omega)] at hb
          cases hb
    · cases hd
      intro a c f hb
      have h1 := hk a c f hb
      have h2 := sharers_set a (some (store_t.LOCAL (small_buffer g))) hl
      have h3 : share a (some (store_t.LOCAL (small_buffer g))) = 0 := rfl
      simp only [sharers, assign_store, hobjs]
      simp only [sharers] at h1
      omega

theorem copy_body_bound {w w1 : world_t} {this s : Nat}
    (hw : ∀ a c f, w.heap[a]? = some (block_t.live c f) → c + 1 ≤ sharers w a)
    (hd : copy_body w this s = some w1) :
    ∀ a c f, w1.heap[a]? = some (block_t.live c f) → c + 1 ≤ sharers w1 a := by
  unfold copy_body at hd
  split at hd
  · cases hd
  · rename_i w0 hr
    obtain ⟨st, hl, hobjs, hk⟩ := release_bound hw hr
    have hthis : this < w0.objs.length := by rw [hobjs]; exact load_lt hl
    rw [load_eq_some] at hl
    split at hd
    · cases hd
    · rename_i src hsrc
      refine retain_bound (load_assign_store_self src hthis) ?_ hd
      intro a c f hb
      have h1 := hk a c f hb
      have h2 := sharers_set a (some src) hl
      simp only [sharers, assign_store, hobjs]
      simp only [sharers] at h1
      omega

theorem move_body_bound {w w1 : world_t} {this s : Nat}
    (hw : ∀ a c f, w.heap[a]? = some (block_t.live c f) → c + 1 ≤ sharers w a)
    (hd : move_body w this s = some w1) :
    ∀ a c f, w1.heap[a]? = some (block_t.live c f) → c + 1 ≤ sharers w1 a := by
  unfold move_body at hd
  split at hd
  · cases hd
  · rename_i w0 hr
    obtain ⟨st, hl, hobjs, hk⟩ := release_bound hw hr
    rw [load_eq_some] at hl
    split at hd
    · cases hd
    · rename_i src hsrc
      have hk1 : ∀ a c f, w0.heap[a]? = some (block_t.live c f) →
          c + 1 + share a (some src) ≤ (w.objs.set this (some src)).countP (refers a) := by
        intro a c f hb
        have h1 := hk a c f hb
        have h2 := sharers_set a (some src) hl
        simp only [sharers] at h1
        omega
      simp only [] at hd
      split at hd
      · cases hd
      · rename_i p hl2
        cases hd
        have hsrc2 : load (assign_store w0 this src) s = some src := by
          by_cases hts : this = s
          · rw [← hts]
            exact load_assign_store_self _ (by rw [hobjs]; exact load_lt (load_eq_some.mpr hl))
          · rw [load_assign_store_of_ne _ hts]
            exact hsrc
        rw [hsrc2] at hl2
        cases hl2
        rw [load_eq_some] at hsrc2
        have hl2 := hsrc2
        simp only [assign_store, hobjs] at hl2
        intro a c f hb
        have h1 := hk1 a c f hb
        have h2 := sharers_set a (some store_t.monostate) hl2
        have h3 : share a (some store_t.monostate) = 0 := rfl
        have h4 := share_le_sharers a hl2
        simp only [sharers, assign_store, hobjs, List.set_set]
        omega
      · cases hd
        intro a c f hb
        have h1 := hk1 a c f hb
        simp only [sharers, assign_store, hobjs]
        omega

theorem step_bound {w w1 : world_t} (op : op_t)
    (hw : ∀ a c f, w.heap[a]? = some (block_t.live c f) → c + 1 ≤ sharers w a)
    (hd : step w op = some w1) :
    ∀ a c f, w1.heap[a]? = some (block_t.live c f) → c + 1 ≤ sharers w1 a := by
  cases op with
  | default_ctor =>
    simp only [step, default_ctor] at hd
    cases hd
    exact new_object_bound hw
  | init this g => exact init_bound hw hd
  | copy_ctor s =>
    simp only [step, copy_ctor] at hd
    split at hd
    · cases hd
    · exact copy_body_bound (new_object_bound hw) hd
  | move_ctor s =>
    simp only [step, move_ctor] at hd
    split at hd
    · cases hd
    · exact move_body_bound (new_object_bound hw) hd
  | copy_assign this s => exact copy_body_bound hw hd
  | move_assign this s => exact move_body_bound hw hd
  | assign_nullptr this => exact reset_bound hw hd
  | assign_int this v => exact reset_bound hw hd
  | dtor this => exact dtor_bound hw hd

theorem run_bound (ops : List op_t) :
    ∀ (w w1 : world_t),
      (∀ a c f, w.heap[a]? = some (block_t.live c f) → c + 1 ≤ sharers w a) →
      run w ops = some w1 →
      ∀ a c f, w1.heap[a]? = some (block_t.live c f) → c + 1 ≤ sharers w1 a := by
  induction ops with
  | nil =>
    intro w w1 hw hr
    cases hr
    exact hw
  | cons op ops ih =>
    intro w w1 hw hr
    simp only [run] at hr
    split at hr
    · cases hr
    · rename_i w2 hs
      exact ih w2 w1 (step_bound op hw hs) hr

/-- In every world reached from the empty world by constructions, `init`, copy and move
construction and assignment, resets and destructions, the count of a live block is below
the number of live handles that point to the block.  In particular `cnt + 1` is
representable as long as fewer than `2 ^ 64` handles are alive. -/
theorem reachable_cnt_lt_sharers (ops : List op_t) (w : world_t) (a c : Nat) (f : payload_t)
    (hr : run world_t.empty ops = some w) (hb : w.heap[a]? = some (block_t.live c f)) :
    c < sharers w a ∧ sharers w a ≤ w.objs.length := by
  have h := run_bound ops world_t.empty w (by intro a c f hb; cases hb) hr a c f hb
  exact ⟨h, List.countP_le_length _⟩

/-- The inline buffer holds the bytes of the payload, in order, from offset 0, and zero
bytes after them. -/
theorem small_buffer_bytes (f : payload_t) :
    (∀ (i : Fin 16) (h : i.val < f.length), small_buffer f i = f[i.val]) ∧
    (∀ i : Fin 16, f.length ≤ i.val → small_buffer f i = 0) := by
  constructor
  · intro i h
    simp only [small_buffer]
    exact List.getD_eq_getElem f 0 h
  · intro i h
    simp only [small_buffer]
    exact List.getD_eq_default f 0 h

/-! ## The claims -/

/-- C1, evaluated: after `init` with a heap payload, one copy construction and a reset
of the copy, both handles are in the `DYNAMIC` state at a block whose count is 0 (two
handles, count not 1), so the invariant fails; after `init` with a heap payload and a
reset of the same handle, the handle is in the `DYNAMIC` state at a freed block. -/
theorem ref_inv_broken_by_reset :
    run world_t.empty
        [op_t.default_ctor, op_t.init 0 big_payload, op_t.copy_ctor 0, op_t.assign_nullptr 1]
      = some ⟨[block_t.live 0 big_payload],
              [some (store_t.DYNAMIC (some 0)), some (store_t.DYNAMIC (some 0))]⟩ ∧
    sharers ⟨[block_t.live 0 big_payload],
        [some (store_t.DYNAMIC (some 0)), some (store_t.DYNAMIC (some 0))]⟩ 0 = 2 ∧
    ref_inv ⟨[block_t.live 0 big_payload],
        [some (store_t.DYNAMIC (some 0)), some (store_t.DYNAMIC (some 0))]⟩ = false ∧
    run world_t.empty [op_t.default_ctor, op_t.init 0 big_payload, op_t.assign_int 0 0]
      = some ⟨[block_t.freed], [some (store_t.DYNAMIC (some 0))]⟩ ∧
    ref_inv ⟨[block_t.freed], [some (store_t.DYNAMIC (some 0))]⟩ = false :=
  ⟨rfl, rfl, rfl, rfl, rfl⟩

/-- C2. Refcount correctness: let a handle `h` be given a heap payload by `init`, and
let `N - 1` further handles be copy-constructed, each from `h` or from an earlier copy
(`1 ≤ N ≤ 2 ^ 64`, so that the count of sharers is a `size_t`).  Then all copy
constructions return, and for every order in which the `N` handles are destroyed: the
first `m < N` destructions return and leave the control block alive, with count
`N - 1 - m` and the payload in place; the `N` destructions together return and leave the
block freed.  The block thus goes from alive to freed at the `N`-th destruction and at
no other. -/
theorem refcount_correctness (N : Nat) (w w0 : world_t) (h : Nat) (f : payload_t)
    (srcs order : List Nat)
    (hN : 1 ≤ N) (hN64 : N ≤ 2 ^ 64)
    (hf : 16 < f.length)
    (hinit : init w h f = some w0)
    (hlen : srcs.length = N - 1)
    (hsrcs : sources_ok h w.objs.length w.objs.length srcs = true)
    (horder : order.Perm (h :: List.range' w.objs.length (N - 1))) :
    load w0 h = some (store_t.DYNAMIC (some w.heap.length)) ∧
    w0.heap[w.heap.length]? = some (block_t.live 0 f) ∧
    ∃ wN, copy_ctors w0 srcs = some wN ∧
      (∀ m, m < N → ∃ wm, dtors wN (order.take m) = some wm ∧
          wm.heap[w.heap.length]? = some (block_t.live (N - 1 - m) f)) ∧
      (∃ wend, dtors wN order = some wend ∧
          wend.heap[w.heap.length]? = some block_t.freed) := by
  -- the world after `init`
  unfold init at hinit
  split at hinit
  · cases hinit
  · rename_i w1 hr
    obtain ⟨hh, hobjs, hheap⟩ := release_some hr
    have hbig : f.length > SMALL_OBJECT_SIZE := hf
    simp only [hbig, if_true] at hinit
    cases hinit
    have hh1 : h < w1.objs.length := by rw [hobjs]; exact hh
    have hload0 : load (world_t.mk (w1.heap ++ [block_t.live 0 f])
        (w1.objs.set h (some (store_t.DYNAMIC (some w1.heap.length))))) h
        = some (store_t.DYNAMIC (some w.heap.length)) := by
      rw [← hheap]
      exact load_assign_store_self (w := w1) _ hh1
    have hblock0 : (world_t.mk (w1.heap ++ [block_t.live 0 f])
        (w1.objs.set h (some (store_t.DYNAMIC (some w1.heap.length))))).heap[w.heap.length]?
        = some (block_t.live 0 f) := by
      rw [← hheap]
      simp
    have hlen0 : (world_t.mk (w1.heap ++ [block_t.live 0 f])
        (w1.objs.set h (some (store_t.DYNAMIC (some w1.heap.length))))).objs.length
        = w.objs.length := by
      simp [hobjs]
    refine ⟨hload0, hblock0, ?_⟩
    -- the copies
    obtain ⟨wN, hc1, hc2, _, hc4, hc5⟩ :=
      copy_ctors_shares w.heap.length h w.objs.length f srcs _ 0 hh
        (by rw [hlen0]) hblock0 hload0
        (by
          intro i hi1 hi2
          rw [hlen0] at hi2
          omega)
        (by rw [hlen0]; exact hsrcs)
        (by omega)
    rw [hlen0] at hc5
    have hcnt : 0 + srcs.length = N - 1 := by omega
    rw [hcnt] at hc2
    -- the handles to destroy
    have hnd : order.Nodup := by
      rw [horder.nodup_iff, List.nodup_cons]
      refine ⟨?_, List.nodup_range' _ _⟩
      rw [List.mem_range'_1]
      omega
    have hall : ∀ i, i ∈ order → load wN i = some (store_t.DYNAMIC (some w.heap.length)) := by
      intro i hi
      rw [horder.mem_iff, List.mem_cons, List.mem_range'_1] at hi
      rcases hi with hi | ⟨hi1, hi2⟩
      · rw [hi]
        exact hc4
      · exact hc5 i hi1 (by omega)
    have holen : order.length = N := by
      rw [horder.length_eq]
      simp
      omega
    refine ⟨wN, hc1, ?_, ?_⟩
    · intro m hm
      have hml : (order.take m).length = m := by
        rw [List.length_take]
        omega
      obtain ⟨wm, h1, h2, _⟩ :=
        dtors_shares w.heap.length f (order.take m) wN (N - 1)
          (hnd.sublist (List.take_sublist m order))
          (fun i hi => hall i (List.mem_of_mem_take hi)) hc2 (by omega)
      refine ⟨wm, h1, ?_⟩
      rw [h2, hml]
      have : m ≤ N - 1 := by omega
      simp only [this, if_true]
    · obtain ⟨wend, h1, h2, _⟩ :=
        dtors_shares w.heap.length f order wN (N - 1) hnd hall hc2 (by omega)
      refine ⟨wend, h1, ?_⟩
      rw [h2, holen]
      have : ¬ N ≤ N - 1 := by omega
      simp only [this, if_false]

/-- Concrete instance for C2: a handle and two copies (the second made from the first copy),
destroyed in the order 1, 0, 2. -/
theorem refcount_correctness_witness :
    ∃ wN, copy_ctors ⟨[block_t.live 0 big_payload], [some (store_t.DYNAMIC (some 0))]⟩ [0, 1]
        = some wN ∧
      (∀ m, m < 3 → ∃ wm, dtors wN ([1, 0, 2].take m) = some wm ∧
          wm.heap[0]? = some (block_t.live (3 - 1 - m) big_payload)) ∧
      (∃ wend, dtors wN [1, 0, 2] = some wend ∧ wend.heap[0]? = some block_t.freed) :=
  (refcount_correctness 3 ⟨[], [some store_t.monostate]⟩
    ⟨[block_t.live 0 big_payload], [some (store_t.DYNAMIC (some 0))]⟩ 0 big_payload
    [0, 1] [1, 0, 2] (by decide) (by decide) (by decide) rfl rfl rfl (by decide)).2.2

/-- C3. Placement threshold of `init`: on a live handle that does not dangle, `init`
returns, and afterwards the handle is in the `LOCAL` state exactly when
`sizeof(payload) <= 16` and in the `DYNAMIC` state exactly when `sizeof(payload) > 16`.
In the heap case the heap has grown by exactly one block, the handle points to it, and
the block has `cnt = 0` and holds the payload; in the inline case no block is created. -/
theorem init_placement (w : world_t) (this : Nat) (f : payload_t) (st : store_t)
    (hl : load w this = some st)
    (hs : ∀ a, st = store_t.DYNAMIC (some a) → ∃ c g, w.heap[a]? = some (block_t.live c g)) :
    ∃ w1, init w this f = some w1 ∧
      ((∃ buf, load w1 this = some (store_t.LOCAL buf)) ↔ f.length ≤ 16) ∧
      ((∃ p, load w1 this = some (store_t.DYNAMIC p)) ↔ 16 < f.length) ∧
      (16 < f.length →
        load w1 this = some (store_t.DYNAMIC (some w.heap.length)) ∧
        w1.heap.length = w.heap.length + 1 ∧
        w1.heap[w.heap.length]? = some (block_t.live 0 f)) ∧
      (f.length ≤ 16 → w1.heap.length = w.heap.length) := by
  obtain ⟨w0, hr, hobjs, hlen, _⟩ := release_total hl hs
  have hthis : this < w0.objs.length := by rw [hobjs]; exact load_lt hl
  by_cases hbig : 16 < f.length
  · have hload : load (world_t.mk (w0.heap ++ [block_t.live 0 f])
          (w0.objs.set this (some (store_t.DYNAMIC (some w0.heap.length))))) this
        = some (store_t.DYNAMIC (some w.heap.length)) := by
      rw [← hlen]
      exact load_assign_store_self (w := w0) _ hthis
    refine ⟨world_t.mk (w0.heap ++ [block_t.live 0 f])
              (w0.objs.set this (some (store_t.DYNAMIC (some w0.heap.length)))),
            ?_, ?_, ?_, ?_, ?_⟩
    · simp [init, hr, SMALL_OBJECT_SIZE, hbig]
    · rw [hload]
      simp
      omega
    · rw [hload]
      simp [hbig]
    · intro _
      refine ⟨hload, by simp [hlen], ?_⟩
      rw [← hlen]
      simp
    · intro h
      omega
  · have hload : load (assign_store w0 this (store_t.LOCAL (small_buffer f))) this
        = some (store_t.LOCAL (small_buffer f)) := load_assign_store_self _ hthis
    refine ⟨assign_store w0 this (store_t.LOCAL (small_buffer f)), ?_, ?_, ?_, ?_, ?_⟩
    · simp [init, hr, SMALL_OBJECT_SIZE, hbig]
    · rw [hload]
      simp
      omega
    · rw [hload]
      simp [hbig]
    · intro h
      exact absurd h hbig
    · intro _
      exact hlen

/-- Concrete instance for C3: `init` with a payload of 17 bytes on an empty handle. -/
theorem init_placement_witness :
    ∃ w1, init ⟨[], [some store_t.monostate]⟩ 0 big_payload = some w1 ∧
      load w1 0 = some (store_t.DYNAMIC (some 0)) ∧
      w1.heap[0]? = some (block_t.live 0 big_payload) := by
  obtain ⟨w1, h1, _, _, h4, _⟩ :=
    init_placement ⟨[], [some store_t.monostate]⟩ 0 big_payload store_t.monostate rfl
      (fun a h => by cases h)
  have h5 := h4 (by decide)
  exact ⟨w1, h1, h5.1, h5.2.2⟩

/-- C4, evaluated on the program of `main.cpp` (two handles share one heap block, then
the copy is assigned `0`, then both go out of scope): after `dx_copy = 0`, and likewise
after `dx_copy = nullptr`, the handle is still in the `DYNAMIC` state and still points
to the block, whose count has dropped to 0; destroying the copy then frees the block and
destroying the original touches the freed block (undefined behaviour).  On a sole owner
the reset frees the block and the handle keeps pointing to it. -/
theorem reset_keeps_handle_dynamic :
    run world_t.empty two_sharers
      = some ⟨[block_t.live 1 big_payload],
              [some (store_t.DYNAMIC (some 0)), some (store_t.DYNAMIC (some 0))]⟩ ∧
    assign_int ⟨[block_t.live 1 big_payload],
        [some (store_t.DYNAMIC (some 0)), some (store_t.DYNAMIC (some 0))]⟩ 1 0
      = some ⟨[block_t.live 0 big_payload],
              [some (store_t.DYNAMIC (some 0)), some (store_t.DYNAMIC (some 0))]⟩ ∧
    assign_nullptr ⟨[block_t.live 1 big_payload],
        [some (store_t.DYNAMIC (some 0)), some (store_t.DYNAMIC (some 0))]⟩ 1
      = some ⟨[block_t.live 0 big_payload],
              [some (store_t.DYNAMIC (some 0)), some (store_t.DYNAMIC (some 0))]⟩ ∧
    load ⟨[block_t.live 0 big_payload],
        [some (store_t.DYNAMIC (some 0)), some (store_t.DYNAMIC (some 0))]⟩ 1
      ≠ some store_t.monostate ∧
    run ⟨[block_t.live 0 big_payload],
        [some (store_t.DYNAMIC (some 0)), some (store_t.DYNAMIC (some 0))]⟩ [op_t.dtor 1]
      = some ⟨[block_t.freed], [some (store_t.DYNAMIC (some 0)), none]⟩ ∧
    run ⟨[block_t.live 0 big_payload],
        [some (store_t.DYNAMIC (some 0)), some (store_t.DYNAMIC (some 0))]⟩
        [op_t.dtor 1, op_t.dtor 0]
      = none ∧
    run world_t.empty [op_t.default_ctor, op_t.init 0 big_payload, op_t.assign_nullptr 0]
      = some ⟨[block_t.freed], [some (store_t.DYNAMIC (some 0))]⟩ := by
  refine ⟨rfl, rfl, rfl, ?_, rfl, rfl, rfl⟩
  intro h
  cases h

/-- C5, as stated, fails: move assignment into a distinct handle that already shares the
source's block changes the block's count (from 1 to 0). -/
theorem move_assign_changes_count :
    ∃ w w1, run world_t.empty two_sharers = some w ∧
      load w 0 = some (store_t.DYNAMIC (some 0)) ∧
      load w 1 = some (store_t.DYNAMIC (some 0)) ∧
      w.heap[0]? = some (block_t.live 1 big_payload) ∧
      move_assign w 1 0 = some w1 ∧
      w1.heap[0]? = some (block_t.live 0 big_payload) :=
  ⟨_, _, rfl, rfl, rfl, rfl, rfl, rfl⟩

/-- C5, amended. Move of a heap payload: let the source hold a heap payload on a live
block with count `c`.  Move construction, and move assignment into a distinct handle that
does not point to that block and does not dangle (it holds nothing, an inline payload, or
a pointer to a live block), return; the destination points to the source's block, the
source is empty, and the block is alive with count `c` and its payload unchanged.  Move
assignment into a distinct handle that already points to the block returns as well and
first releases the destination's own share: the destination still points to the block,
the source is empty, and the block has count `c - 1` when `c > 0` and is freed when
`c = 0`. -/
theorem move_heap_payload (w : world_t) (s a c : Nat) (f : payload_t)
    (hl : load w s = some (store_t.DYNAMIC (some a)))
    (hb : w.heap[a]? = some (block_t.live c f)) :
    (∃ w1, move_ctor w s = some w1 ∧
      load w1 w.objs.length = some (store_t.DYNAMIC (some a)) ∧
      load w1 s = some store_t.monostate ∧
      w1.heap = w.heap) ∧
    (∀ this dst, this ≠ s → load w this = some dst → dst ≠ store_t.DYNAMIC (some a) →
        (∀ b, dst = store_t.DYNAMIC (some b) → ∃ n g, w.heap[b]? = some (block_t.live n g)) →
        ∃ w1, move_assign w this s = some w1 ∧
          load w1 this = some (store_t.DYNAMIC (some a)) ∧
          load w1 s = some store_t.monostate ∧
          w1.heap[a]? = some (block_t.live c f)) ∧
    (∀ this, this ≠ s → load w this = some (store_t.DYNAMIC (some a)) →
        ∃ w1, move_assign w this s = some w1 ∧
          load w1 this = some (store_t.DYNAMIC (some a)) ∧
          load w1 s = some store_t.monostate ∧
          w1.heap[a]? = some (if c = 0 then block_t.freed else block_t.live (c - 1) f) ∧
          (∀ b, b ≠ a → w1.heap[b]? = w.heap[b]?)) := by
  have hs := load_lt hl
  have ha := heap_lt_of_some hb
  refine ⟨?_, ?_, ?_⟩
  · refine ⟨_, move_ctor_eq hl, ?_, ?_, rfl⟩
    · rw [load_eq_some]
      simp
    · rw [load_eq_some]
      simp only []
      rw [List.getElem?_append_left (by simpa using hs)]
      exact List.getElem?_set_self hs
  · intro this dst hne hd hdst hdang
    have hthis := load_lt hd
    obtain ⟨w0, hr, hobjs, _, hheap⟩ := release_total hd hdang
    have hthis0 : this < w0.objs.length := by rw [hobjs]; exact hthis
    have hs0 : s < w0.objs.length := by rw [hobjs]; exact hs
    refine ⟨_, move_assign_eq hr hobjs hl hthis, ?_, ?_, ?_⟩
    · simp only []
      rw [load_assign_store_of_ne _ (Ne.symm hne)]
      exact load_assign_store_self _ hthis0
    · simp only []
      exact load_assign_store_self _ (by simpa [assign_store] using hs0)
    · simp only [assign_store]
      rw [hheap a hdst]
      exact hb
  · intro this hne hd
    have hthis := load_lt hd
    have hr := release_dynamic hd hb
    refine ⟨_, move_assign_eq hr rfl hl hthis, ?_, ?_, ?_, ?_⟩
    · simp only []
      rw [load_assign_store_of_ne _ (Ne.symm hne)]
      exact load_assign_store_self _ hthis
    · simp only []
      exact load_assign_store_self _ (by simpa [assign_store] using hs)
    · simp only [assign_store]
      exact List.getElem?_set_self ha
    · intro b hba
      simp only [assign_store]
      exact List.getElem?_set_ne (Ne.symm hba)

/-- Concrete instance for C5: move construction, move assignment into an empty handle,
move assignment into a handle that shares the block with count 1, and move assignment
into a handle that shares a block whose count is 0. -/
theorem move_heap_payload_witness :
    (∃ w1, move_ctor ⟨[block_t.live 1 big_payload],
        [some (store_t.DYNAMIC (some 0)), some (store_t.DYNAMIC (some 0))]⟩ 0 = some w1 ∧
      load w1 2 = some (store_t.DYNAMIC (some 0)) ∧ load w1 0 = some store_t.monostate) ∧
    (∃ w1, move_assign ⟨[block_t.live 0 big_payload],
        [some (store_t.DYNAMIC (some 0)), some store_t.monostate]⟩ 1 0 = some w1 ∧
      load w1 1 = some (store_t.DYNAMIC (some 0)) ∧ load w1 0 = some store_t.monostate ∧
      w1.heap[0]? = some (block_t.live 0 big_payload)) ∧
    (∃ w1, move_assign ⟨[block_t.live 1 big_payload],
        [some (store_t.DYNAMIC (some 0)), some (store_t.DYNAMIC (some 0))]⟩ 1 0 = some w1 ∧
      load w1 1 = some (store_t.DYNAMIC (some 0)) ∧ load w1 0 = some store_t.monostate ∧
      w1.heap[0]? = some (block_t.live 0 big_payload)) ∧
    (∃ w1, move_assign ⟨[block_t.live 0 big_payload],
        [some (store_t.DYNAMIC (some 0)), some (store_t.DYNAMIC (some 0))]⟩ 1 0 = some w1 ∧
      load w1 1 = some (store_t.DYNAMIC (some 0)) ∧ load w1 0 = some store_t.monostate ∧
      w1.heap[0]? = some block_t.freed) := by
  refine ⟨?_, ?_, ?_, ?_⟩
  · obtain ⟨w1, h1, h2, h3, _⟩ :=
      (move_heap_payload ⟨[block_t.live 1 big_payload],
        [some (store_t.DYNAMIC (some 0)), some (store_t.DYNAMIC (some 0))]⟩
        0 0 1 big_payload rfl rfl).1
    exact ⟨w1, h1, h2, h3⟩
  · exact (move_heap_payload ⟨[block_t.live 0 big_payload],
        [some (store_t.DYNAMIC (some 0)), some store_t.monostate]⟩
        0 0 0 big_payload rfl rfl).2.1 1 store_t.monostate (by decide) rfl
        (fun h => by cases h) (fun b h => by cases h)
  · obtain ⟨w1, h1, h2, h3, h4, _⟩ :=
      (move_heap_payload ⟨[block_t.live 1 big_payload],
        [some (store_t.DYNAMIC (some 0)), some (store_t.DYNAMIC (some 0))]⟩
        0 0 1 big_payload rfl rfl).2.2 1 (by decide) rfl
    exact ⟨w1, h1, h2, h3, h4⟩
  · obtain ⟨w1, h1, h2, h3, h4, _⟩ :=
      (move_heap_payload ⟨[block_t.live 0 big_payload],
        [some (store_t.DYNAMIC (some 0)), some (store_t.DYNAMIC (some 0))]⟩
        0 0 0 big_payload rfl rfl).2.2 1 (by decide) rfl
    exact ⟨w1, h1, h2, h3, h4⟩

/-- C6, as stated, fails: after move construction from a handle that holds an inline
payload the moved-from handle is still in the `LOCAL` state, not empty. -/
theorem move_keeps_inline_source :
    run world_t.empty one_inline
      = some ⟨[], [some (store_t.LOCAL (small_buffer small_payload))]⟩ ∧
    move_ctor ⟨[], [some (store_t.LOCAL (small_buffer small_payload))]⟩ 0
      = some ⟨[], [some (store_t.LOCAL (small_buffer small_payload)),
                   some (store_t.LOCAL (small_buffer small_payload))]⟩ ∧
    load ⟨[], [some (store_t.LOCAL (small_buffer small_payload)),
               some (store_t.LOCAL (small_buffer small_payload))]⟩ 0
      ≠ some store_t.monostate := by
  refine ⟨rfl, rfl, ?_⟩
  intro h
  cases h

/-- C6, amended. After move construction, and after move assignment into a live handle
that does not dangle, the moved-from handle is empty when it held a heap payload or
nothing, and is still in the `LOCAL` state with the same buffer bytes when it held an
inline payload; both operations return. -/
theorem move_source_after (w : world_t) (s : Nat) (src : store_t)
    (hl : load w s = some src) :
    (∃ w1, move_ctor w s = some w1 ∧
      ((∀ buf, src ≠ store_t.LOCAL buf) → load w1 s = some store_t.monostate) ∧
      (∀ buf, src = store_t.LOCAL buf → load w1 s = some (store_t.LOCAL buf))) ∧
    (∀ this dst, load w this = some dst →
        (∀ b, dst = store_t.DYNAMIC (some b) → ∃ n g, w.heap[b]? = some (block_t.live n g)) →
        ∃ w1, move_assign w this s = some w1 ∧
          ((∀ buf, src ≠ store_t.LOCAL buf) → load w1 s = some store_t.monostate) ∧
          (∀ buf, src = store_t.LOCAL buf → load w1 s = some (store_t.LOCAL buf))) := by
  have hs := load_lt hl
  constructor
  · refine ⟨_, move_ctor_eq hl, ?_, ?_⟩
    · intro hsrc
      cases src with
      | monostate =>
        rw [load_eq_some] at hl ⊢
        simp only []
        rw [List.getElem?_append_left hs]
        exact hl
      | LOCAL buf => exact absurd rfl (hsrc buf)
      | DYNAMIC p =>
        rw [load_eq_some]
        simp only []
        rw [List.getElem?_append_left (by simpa using hs)]
        exact List.getElem?_set_self hs
    · intro buf hsrc
      subst hsrc
      rw [load_eq_some] at hl ⊢
      simp only []
      rw [List.getElem?_append_left hs]
      exact hl
  · intro this dst hd hdang
    have hthis := load_lt hd
    obtain ⟨w0, hr, hobjs, _, _⟩ := release_total hd hdang
    have hthis0 : this < w0.objs.length := by rw [hobjs]; exact hthis
    have hs0 : s < w0.objs.length := by rw [hobjs]; exact hs
    have hl0 : load w0 s = some src := by
      rw [load_eq_some] at hl ⊢
      rw [hobjs]
      exact hl
    have h2 : load (assign_store w0 this src) s = some src := by
      by_cases hts : this = s
      · rw [← hts]
        exact load_assign_store_self _ hthis0
      · rw [load_assign_store_of_ne _ hts]
        exact hl0
    refine ⟨_, move_assign_eq hr hobjs hl hthis, ?_, ?_⟩
    · intro hsrc
      cases src with
      | monostate => exact h2
      | LOCAL buf => exact absurd rfl (hsrc buf)
      | DYNAMIC p =>
        simp only []
        exact load_assign_store_self _ (by simpa [assign_store] using hs0)
    · intro buf hsrc
      subst hsrc
      exact h2

/-- Concrete instance for C6: move construction and move assignment from a sole owner of a
heap block. -/
theorem move_source_after_witness :
    (∃ w1, move_ctor ⟨[block_t.live 0 big_payload], [some (store_t.DYNAMIC (some 0))]⟩ 0
        = some w1 ∧ load w1 0 = some store_t.monostate) ∧
    (∃ w1, move_assign ⟨[block_t.live 0 big_payload],
        [some (store_t.DYNAMIC (some 0)), some store_t.monostate]⟩ 1 0
        = some w1 ∧ load w1 0 = some store_t.monostate) := by
  constructor
  · obtain ⟨w1, h1, h2, _⟩ :=
      (move_source_after ⟨[block_t.live 0 big_payload], [some (store_t.DYNAMIC (some 0))]⟩
        0 _ rfl).1
    exact ⟨w1, h1, h2 (fun buf h => by cases h)⟩
  · obtain ⟨w1, h1, h2, _⟩ :=
      (move_source_after ⟨[block_t.live 0 big_payload],
        [some (store_t.DYNAMIC (some 0)), some store_t.monostate]⟩ 0 _ rfl).2
        1 store_t.monostate rfl (fun b h => by cases h)
    exact ⟨w1, h1, h2 (fun buf h => by cases h)⟩

/-- C7. Copy of a heap payload aliases: copy construction from a handle that holds a
heap payload whose block has count `c` (with `c + 1` representable in `size_t`) returns;
the new handle points to the same block, the block's count is `c + 1` and its payload is
unchanged, the source and every other handle are unchanged, no block is created and no
other block changes, so the set of live blocks is the same. -/
theorem copy_ctor_aliases (w : world_t) (s a c : Nat) (f : payload_t)
    (hl : load w s = some (store_t.DYNAMIC (some a)))
    (hb : w.heap[a]? = some (block_t.live c f))
    (hc : c + 1 < 2 ^ 64) :
    ∃ w1, copy_ctor w s = some w1 ∧
      load w1 w.objs.length = some (store_t.DYNAMIC (some a)) ∧
      w1.heap[a]? = some (block_t.live (c + 1) f) ∧
      load w1 s = some (store_t.DYNAMIC (some a)) ∧
      (∀ i, i < w.objs.length → w1.objs[i]? = w.objs[i]?) ∧
      w1.objs.length = w.objs.length + 1 ∧
      w1.heap.length = w.heap.length ∧
      (∀ b, b ≠ a → w1.heap[b]? = w.heap[b]?) ∧
      (∀ b : Nat, (∃ n g, w1.heap[b]? = some (block_t.live n g))
          ↔ (∃ n g, w.heap[b]? = some (block_t.live n g))) := by
  have ha := heap_lt_of_some hb
  have hs := load_lt hl
  have hmod : (c + 1) % SIZE_T_RANGE = c + 1 := Nat.mod_eq_of_lt hc
  refine ⟨_, copy_ctor_dynamic hl hb, ?_, ?_, ?_, ?_, ?_, ?_, ?_, ?_⟩
  · rw [load_eq_some]
    simp
  · rw [hmod]
    exact List.getElem?_set_self ha
  · rw [load_eq_some] at hl ⊢
    simp only []
    rw [List.getElem?_append_left hs]
    exact hl
  · intro i hi
    exact List.getElem?_append_left hi
  · simp
  · simp
  · intro b hne
    exact List.getElem?_set_ne (Ne.symm hne)
  · intro b
    by_cases hba : b = a
    · subst hba
      simp only []
      rw [List.getElem?_set_self ha, hb]
      simp
    · simp only []
      rw [List.getElem?_set_ne (Ne.symm hba)]

/-- Concrete instance for C7: copy construction from a sole owner of a heap block. -/
theorem copy_ctor_aliases_witness :
    ∃ w1, copy_ctor ⟨[block_t.live 0 big_payload], [some (store_t.DYNAMIC (some 0))]⟩ 0 = some w1 ∧
      load w1 1 = some (store_t.DYNAMIC (some 0)) ∧
      w1.heap[0]? = some (block_t.live 1 big_payload) := by
  obtain ⟨w1, h1, h2, h3, _⟩ :=
    copy_ctor_aliases ⟨[block_t.live 0 big_payload], [some (store_t.DYNAMIC (some 0))]⟩
      0 0 0 big_payload rfl rfl (by decide)
  exact ⟨w1, h1, h2, h3⟩

/-- C8. Destruction step: destroying a handle that holds a heap payload whose block has
count `c` frees the block when `c = 0` and otherwise leaves it alive with count `c - 1`
(same payload); no other block changes and no block is created.  Destroying a handle that
holds no heap payload (empty or inline) leaves the whole heap unchanged.  In both cases the
destructor returns and the lifetime of the handle has ended. -/
theorem dtor_step (w : world_t) (this : Nat) :
    (∀ a c f, load w this = some (store_t.DYNAMIC (some a)) →
        w.heap[a]? = some (block_t.live c f) →
        ∃ w1, dtor w this = some w1 ∧
          w1.heap[a]? = some (if c = 0 then block_t.freed else block_t.live (c - 1) f) ∧
          w1.heap.length = w.heap.length ∧
          (∀ b, b ≠ a → w1.heap[b]? = w.heap[b]?) ∧
          load w1 this = none) ∧
    (∀ st, load w this = some st → (∀ a, st ≠ store_t.DYNAMIC (some a)) →
        ∃ w1, dtor w this = some w1 ∧ w1.heap = w.heap ∧ load w1 this = none) := by
  constructor
  · intro a c f hl hb
    have ha := heap_lt_of_some hb
    have hthis := load_lt hl
    refine ⟨world_t.mk
        (w.heap.set a (if c = 0 then block_t.freed else block_t.live (c - 1) f))
        (w.objs.set this none), ?_, ?_, ?_, ?_, ?_⟩
    · simp only [dtor, release_dynamic hl hb]
    · exact List.getElem?_set_self ha
    · simp
    · intro b hne
      exact List.getElem?_set_ne (Ne.symm hne)
    · simp [load, List.getElem?_set_self hthis]
  · intro st hl hs
    have hthis := load_lt hl
    refine ⟨world_t.mk w.heap (w.objs.set this none), ?_, rfl, ?_⟩
    · simp only [dtor, release_not_dynamic hl hs]
    · simp [load, List.getElem?_set_self hthis]

/-- Concrete instance for C8: destruction of one of two sharers, and of an empty handle. -/
theorem dtor_step_witness :
    (∃ w1, dtor ⟨[block_t.live 1 big_payload], [some (store_t.DYNAMIC (some 0))]⟩ 0 = some w1 ∧
      w1.heap[0]? = some (block_t.live 0 big_payload)) ∧
    (∃ w1, dtor ⟨[block_t.live 1 big_payload], [some store_t.monostate]⟩ 0 = some w1 ∧
      w1.heap = [block_t.live 1 big_payload]) := by
  constructor
  · obtain ⟨w1, h1, h2, _⟩ :=
      (dtor_step ⟨[block_t.live 1 big_payload], [some (store_t.DYNAMIC (some 0))]⟩ 0).1
        0 1 big_payload rfl rfl
    exact ⟨w1, h1, h2⟩
  · obtain ⟨w1, h1, h2, _⟩ :=
      (dtor_step ⟨[block_t.live 1 big_payload], [some store_t.monostate]⟩ 0).2
        store_t.monostate rfl (fun a h => by cases h)
    exact ⟨w1, h1, h2⟩

/-- C9. `init` releases the previous payload: on a handle that holds a heap payload whose
block has count `c`, `init` returns; the old block has been released exactly once (freed
when `c = 0`, count `c - 1` otherwise), every other block that existed is unchanged, and
the handle no longer points to the old block.  Then the new value is stored: for a payload
of more than 16 bytes the handle points to a fresh block with `cnt = 0` that holds the
payload; for a payload of at most 16 bytes the handle is in the `LOCAL` state and its
buffer holds the bytes of the payload, in order, from offset 0, followed by zero bytes,
and no block is created.  On a handle that holds no heap payload, `init` returns, changes
no block that existed, and stores the new value in the same way. -/
theorem init_releases_previous (w : world_t) (this : Nat) (f : payload_t) :
    (∀ a c g, load w this = some (store_t.DYNAMIC (some a)) →
        w.heap[a]? = some (block_t.live c g) →
        ∃ w1, init w this f = some w1 ∧
          w1.heap[a]? = some (if c = 0 then block_t.freed else block_t.live (c - 1) g) ∧
          (∀ b, b ≠ a → b < w.heap.length → w1.heap[b]? = w.heap[b]?) ∧
          load w1 this ≠ some (store_t.DYNAMIC (some a)) ∧
          load w1 this = some (if 16 < f.length then store_t.DYNAMIC (some w.heap.length)
                               else store_t.LOCAL (small_buffer f)) ∧
          (16 < f.length → w1.heap[w.heap.length]? = some (block_t.live 0 f)) ∧
          (f.length ≤ 16 → w1.heap.length = w.heap.length ∧
            ∃ buf, load w1 this = some (store_t.LOCAL buf) ∧
              (∀ (i : Fin 16) (h : i.val < f.length), buf i = f[i.val]) ∧
              (∀ i : Fin 16, f.length ≤ i.val → buf i = 0))) ∧
    (∀ st, load w this = some st → (∀ a, st ≠ store_t.DYNAMIC (some a)) →
        ∃ w1, init w this f = some w1 ∧
          (∀ b, b < w.heap.length → w1.heap[b]? = w.heap[b]?) ∧
          load w1 this = some (if 16 < f.length then store_t.DYNAMIC (some w.heap.length)
                               else store_t.LOCAL (small_buffer f)) ∧
          (16 < f.length → w1.heap[w.heap.length]? = some (block_t.live 0 f)) ∧
          (f.length ≤ 16 → w1.heap.length = w.heap.length ∧
            ∃ buf, load w1 this = some (store_t.LOCAL buf) ∧
              (∀ (i : Fin 16) (h : i.val < f.length), buf i = f[i.val]) ∧
              (∀ i : Fin 16, f.length ≤ i.val → buf i = 0))) := by
  constructor
  · intro a c g hl hb
    have ha := heap_lt_of_some hb
    have hthis := load_lt hl
    have hr := release_dynamic hl hb
    by_cases hbig : 16 < f.length
    · refine ⟨world_t.mk
          (w.heap.set a (if c = 0 then block_t.freed else block_t.live (c - 1) g)
            ++ [block_t.live 0 f])
          (w.objs.set this (some (store_t.DYNAMIC (some w.heap.length)))),
          ?_, ?_, ?_, ?_, ?_, ?_, ?_⟩
      · simp [init, hr, SMALL_OBJECT_SIZE, hbig]
      · simp only []
        rw [List.getElem?_append_left (by simpa using ha)]
        exact List.getElem?_set_self ha
      · intro b hne hlt
        simp only []
        rw [List.getElem?_append_left (by simpa using hlt)]
        exact List.getElem?_set_ne (Ne.symm hne)
      · simp [load, List.getElem?_set_self hthis]
        omega
      · simp [load, List.getElem?_set_self hthis, hbig]
      · intro _
        simp only []
        have : (w.heap.set a (if c = 0 then block_t.freed else block_t.live (c - 1) g)).length
            = w.heap.length := by simp
        rw [← this]
        simp
      · intro h
        omega
    · refine ⟨world_t.mk
          (w.heap.set a (if c = 0 then block_t.freed else block_t.live (c - 1) g))
          (w.objs.set this (some (store_t.LOCAL (small_buffer f)))),
          ?_, ?_, ?_, ?_, ?_, ?_, ?_⟩
      · simp [init, hr, SMALL_OBJECT_SIZE, hbig, assign_store]
      · exact List.getElem?_set_self ha
      · intro b hne _
        exact List.getElem?_set_ne (Ne.symm hne)
      · simp [load, List.getElem?_set_self hthis]
      · simp [load, List.getElem?_set_self hthis, hbig]
      · intro h
        exact absurd h hbig
      · intro _
        refine ⟨by simp, small_buffer f, ?_, (small_buffer_bytes f).1, (small_buffer_bytes f).2⟩
        simp [load, List.getElem?_set_self hthis]
  · intro st hl hs
    have hthis := load_lt hl
    have hr := release_not_dynamic hl hs
    by_cases hbig : 16 < f.length
    · refine ⟨world_t.mk (w.heap ++ [block_t.live 0 f])
          (w.objs.set this (some (store_t.DYNAMIC (some w.heap.length)))), ?_, ?_, ?_, ?_, ?_⟩
      · simp [init, hr, SMALL_OBJECT_SIZE, hbig]
      · intro b hlt
        exact List.getElem?_append_left hlt
      · simp [load, List.getElem?_set_self hthis, hbig]
      · intro _
        simp
      · intro h
        omega
    · refine ⟨world_t.mk w.heap (w.objs.set this (some (store_t.LOCAL (small_buffer f)))),
          ?_, ?_, ?_, ?_, ?_⟩
      · simp [init, hr, SMALL_OBJECT_SIZE, hbig, assign_store]
      · intro b _
        rfl
      · simp [load, List.getElem?_set_self hthis, hbig]
      · intro h
        exact absurd h hbig
      · intro _
        refine ⟨rfl, small_buffer f, ?_, (small_buffer_bytes f).1, (small_buffer_bytes f).2⟩
        simp [load, List.getElem?_set_self hthis]

/-- Concrete instance for C9: `init` with the payload of bytes 1, 2 on one of two
sharers, and on an empty handle; the buffer starts with the bytes 1, 2 and goes on with
zero bytes. -/
theorem init_releases_previous_witness :
    (∃ w1, init ⟨[block_t.live 1 big_payload], [some (store_t.DYNAMIC (some 0))]⟩ 0 small_payload
        = some w1 ∧ w1.heap[0]? = some (block_t.live 0 big_payload) ∧
      ∃ buf, load w1 0 = some (store_t.LOCAL buf) ∧ buf 0 = 1 ∧ buf 1 = 2 ∧ buf 2 = 0) ∧
    (∃ w1, init ⟨[block_t.live 1 big_payload], [some store_t.monostate]⟩ 0 small_payload
        = some w1 ∧ (∀ b, b < 1 → w1.heap[b]? = [block_t.live 1 big_payload][b]?) ∧
      ∃ buf, load w1 0 = some (store_t.LOCAL buf) ∧ buf 0 = 1 ∧ buf 1 = 2 ∧ buf 2 = 0) := by
  constructor
  · obtain ⟨w1, h1, h2, _, _, _, _, h7⟩ :=
      (init_releases_previous
        ⟨[block_t.live 1 big_payload], [some (store_t.DYNAMIC (some 0))]⟩ 0 small_payload).1
        0 1 big_payload rfl rfl
    obtain ⟨_, buf, hb1, hb2, hb3⟩ := h7 (by decide)
    exact ⟨w1, h1, h2, buf, hb1, hb2 0 (by decide), hb2 1 (by decide), hb3 2 (by decide)⟩
  · obtain ⟨w1, h1, h2, _, _, h5⟩ :=
      (init_releases_previous
        ⟨[block_t.live 1 big_payload], [some store_t.monostate]⟩ 0 small_payload).2
        store_t.monostate rfl (fun a h => by cases h)
    obtain ⟨_, buf, hb1, hb2, hb3⟩ := h5 (by decide)
    exact ⟨w1, h1, h2, buf, hb1, hb2 0 (by decide), hb2 1 (by decide), hb3 2 (by decide)⟩

/-- C10, as stated, fails: copy assignment from a handle that holds an inline payload
into a handle that holds a heap payload changes a count (the destination's old block goes
from count 1 to count 0). -/
theorem inline_copy_assign_changes_count :
    ∃ w w1, run world_t.empty two_sharers_and_inline = some w ∧
      load w 2 = some (store_t.LOCAL (small_buffer small_payload)) ∧
      w.heap[0]? = some (block_t.live 1 big_payload) ∧
      copy_assign w 0 2 = some w1 ∧
      w1.heap[0]? = some (block_t.live 0 big_payload) :=
  ⟨_, _, rfl, rfl, rfl, rfl, rfl⟩

/-- C10, amended. Inline payloads do not touch the heap: for a payload of at most 16
bytes, `init` on an empty handle, copy construction from a handle that holds an inline
payload, and copy assignment from such a handle into a handle that holds no heap payload
all return and leave the heap exactly as it was (no block created, no count changed); the
copy is in the `LOCAL` state with the same 16 buffer bytes as the source, and the source
is unchanged.  Copy assignment into a handle that holds a heap payload releases that
payload's block once (freed at count 0, count minus one otherwise), changes no other
block, and yields the same inline copy. -/
theorem inline_never_touches_heap (w : world_t) :
    (∀ this f, load w this = some store_t.monostate → f.length ≤ 16 →
        ∃ w1, init w this f = some w1 ∧ w1.heap = w.heap ∧
          load w1 this = some (store_t.LOCAL (small_buffer f))) ∧
    (∀ s buf, load w s = some (store_t.LOCAL buf) →
        ∃ w1, copy_ctor w s = some w1 ∧ w1.heap = w.heap ∧
          load w1 w.objs.length = some (store_t.LOCAL buf) ∧
          load w1 s = some (store_t.LOCAL buf)) ∧
    (∀ this s buf dst, load w s = some (store_t.LOCAL buf) → load w this = some dst →
        (∀ a, dst ≠ store_t.DYNAMIC (some a)) →
        ∃ w1, copy_assign w this s = some w1 ∧ w1.heap = w.heap ∧
          load w1 this = some (store_t.LOCAL buf) ∧
          load w1 s = some (store_t.LOCAL buf)) ∧
    (∀ this s buf a c g, load w s = some (store_t.LOCAL buf) →
        load w this = some (store_t.DYNAMIC (some a)) →
        w.heap[a]? = some (block_t.live c g) →
        ∃ w1, copy_assign w this s = some w1 ∧
          w1.heap = w.heap.set a (if c = 0 then block_t.freed else block_t.live (c - 1) g) ∧
          load w1 this = some (store_t.LOCAL buf) ∧
          load w1 s = some (store_t.LOCAL buf)) := by
  refine ⟨?_, ?_, ?_, ?_⟩
  · intro this f hl hf
    have hthis := load_lt hl
    have hr := release_not_dynamic hl (fun a h => by cases h)
    have hbig : ¬ 16 < f.length := by omega
    refine ⟨assign_store w this (store_t.LOCAL (small_buffer f)), ?_, rfl,
      load_assign_store_self _ hthis⟩
    simp [init, hr, SMALL_OBJECT_SIZE, hbig]
  · intro s buf hl
    have hs := load_lt hl
    refine ⟨_, copy_ctor_not_dynamic hl (fun a h => by cases h), rfl, ?_, ?_⟩
    · rw [load_eq_some]
      simp
    · rw [load_eq_some] at hl ⊢
      simp only []
      rw [List.getElem?_append_left hs]
      exact hl
  · intro this s buf dst hl hd hdst
    have hthis := load_lt hd
    have hr := release_not_dynamic hd hdst
    have h1 : load (assign_store w this (store_t.LOCAL buf)) this = some (store_t.LOCAL buf) :=
      load_assign_store_self _ hthis
    refine ⟨assign_store w this (store_t.LOCAL buf), ?_, rfl, h1, ?_⟩
    · simp only [copy_assign, copy_body, hr, hl]
      exact retain_not_dynamic h1 (fun a h => by cases h)
    · by_cases hts : this = s
      · rw [← hts]
        exact h1
      · rw [load_assign_store_of_ne _ hts]
        exact hl
  · intro this s buf a c g hl hd hb
    have hthis := load_lt hd
    have hr := release_dynamic hd hb
    have hts : this ≠ s := by
      intro h
      rw [h, hl] at hd
      cases hd
    have h1 : load (assign_store (world_t.mk
        (w.heap.set a (if c = 0 then block_t.freed else block_t.live (c - 1) g)) w.objs)
        this (store_t.LOCAL buf)) this = some (store_t.LOCAL buf) :=
      load_assign_store_self _ hthis
    refine ⟨assign_store (world_t.mk
        (w.heap.set a (if c = 0 then block_t.freed else block_t.live (c - 1) g)) w.objs)
        this (store_t.LOCAL buf), ?_, rfl, h1, ?_⟩
    · simp only [copy_assign, copy_body, hr]
      have hl1 : load (world_t.mk
          (w.heap.set a (if c = 0 then block_t.freed else block_t.live (c - 1) g)) w.objs) s
          = some (store_t.LOCAL buf) := hl
      simp only [hl1]
      exact retain_not_dynamic h1 (fun a h => by cases h)
    · rw [load_assign_store_of_ne _ hts]
      exact hl

/-- Concrete instance for C10: `init` with a payload of 2 bytes, copy construction and copy
assignment of the inline payload, and copy assignment into a sole owner of a heap block. -/
theorem inline_never_touches_heap_witness :
    (∃ w1, init ⟨[], [some store_t.monostate]⟩ 0 small_payload = some w1 ∧ w1.heap = []) ∧
    (∃ w1, copy_ctor ⟨[], [some (store_t.LOCAL (small_buffer small_payload))]⟩ 0 = some w1 ∧
      w1.heap = [] ∧ load w1 1 = some (store_t.LOCAL (small_buffer small_payload))) ∧
    (∃ w1, copy_assign
        ⟨[], [some store_t.monostate, some (store_t.LOCAL (small_buffer small_payload))]⟩ 0 1
        = some w1 ∧ w1.heap = [] ∧
      load w1 0 = some (store_t.LOCAL (small_buffer small_payload))) ∧
    (∃ w1, copy_assign
        ⟨[block_t.live 0 big_payload],
         [some (store_t.DYNAMIC (some 0)), some (store_t.LOCAL (small_buffer small_payload))]⟩ 0 1
        = some w1 ∧ w1.heap = [block_t.freed]) := by
  refine ⟨?_, ?_, ?_, ?_⟩
  · obtain ⟨w1, h1, h2, _⟩ :=
      (inline_never_touches_heap ⟨[], [some store_t.monostate]⟩).1 0 small_payload rfl
        (by decide)
    exact ⟨w1, h1, h2⟩
  · obtain ⟨w1, h1, h2, h3, _⟩ :=
      (inline_never_touches_heap
        ⟨[], [some (store_t.LOCAL (small_buffer small_payload))]⟩).2.1 0 _ rfl
    exact ⟨w1, h1, h2, h3⟩
  · obtain ⟨w1, h1, h2, h3, _⟩ :=
      (inline_never_touches_heap
        ⟨[], [some store_t.monostate,
              some (store_t.LOCAL (small_buffer small_payload))]⟩).2.2.1
        0 1 _ store_t.monostate rfl rfl (fun a h => by cases h)
    exact ⟨w1, h1, h2, h3⟩
  · obtain ⟨w1, h1, h2, _⟩ :=
      (inline_never_touches_heap
        ⟨[block_t.live 0 big_payload],
         [some (store_t.DYNAMIC (some 0)),
          some (store_t.LOCAL (small_buffer small_payload))]⟩).2.2.2
        0 1 _ 0 0 big_payload rfl rfl rfl
    exact ⟨w1, h1, h2⟩

/-- C11. Reset releases the block once: on a handle that holds a heap payload whose
block has count `c`, assigning `nullptr` returns; the block has been released exactly
once (freed when `c = 0`, count `c - 1` and the same payload otherwise), no other block
has changed and no block has been created; the object table is as it was.  Assigning an
`int` is the same function of the world as assigning `nullptr`, whatever the handle
holds and whatever the value: both markers have the same effect on the handle and on
the heap. -/
theorem reset_releases_once (w : world_t) (this : Nat) :
    (∀ v, assign_int w this v = assign_nullptr w this) ∧
    (∀ a c f, load w this = some (store_t.DYNAMIC (some a)) →
        w.heap[a]? = some (block_t.live c f) →
        ∃ w1, assign_nullptr w this = some w1 ∧
          (∀ v, assign_int w this v = some w1) ∧
          w1.heap[a]? = some (if c = 0 then block_t.freed else block_t.live (c - 1) f) ∧
          w1.heap.length = w.heap.length ∧
          (∀ b, b ≠ a → w1.heap[b]? = w.heap[b]?) ∧
          w1.objs = w.objs) := by
  constructor
  · intro v
    rfl
  · intro a c f hl hb
    have ha := heap_lt_of_some hb
    refine ⟨world_t.mk
        (w.heap.set a (if c = 0 then block_t.freed else block_t.live (c - 1) f)) w.objs,
      ?_, ?_, ?_, ?_, ?_, rfl⟩
    · exact release_dynamic hl hb
    · intro v
      exact release_dynamic hl hb
    · exact List.getElem?_set_self ha
    · simp
    · intro b hne
      exact List.getElem?_set_ne (Ne.symm hne)

/-- Concrete instance for C11: reset of one of two sharers, by `nullptr` and by `0`. -/
theorem reset_releases_once_witness :
    ∃ w1, assign_nullptr ⟨[block_t.live 1 big_payload],
        [some (store_t.DYNAMIC (some 0)), some (store_t.DYNAMIC (some 0))]⟩ 1 = some w1 ∧
      (∀ v, assign_int ⟨[block_t.live 1 big_payload],
        [some (store_t.DYNAMIC (some 0)), some (store_t.DYNAMIC (some 0))]⟩ 1 v = some w1) ∧
      w1.heap[0]? = some (block_t.live 0 big_payload) := by
  obtain ⟨w1, h1, h2, h3, _⟩ :=
    (reset_releases_once ⟨[block_t.live 1 big_payload],
        [some (store_t.DYNAMIC (some 0)), some (store_t.DYNAMIC (some 0))]⟩ 1).2
      0 1 big_payload rfl rfl
  exact ⟨w1, h1, h2, h3⟩

/-- C12. Reset does not touch an inline payload: on a handle in the `LOCAL` state, and
on an empty handle, assigning `nullptr` and assigning an `int` return the world they
were given: the state tag and the 16 buffer bytes of the handle, every other handle and
every control block are unchanged. -/
theorem reset_keeps_inline (w : world_t) (this : Nat) :
    (∀ buf, load w this = some (store_t.LOCAL buf) →
        assign_nullptr w this = some w ∧ ∀ v, assign_int w this v = some w) ∧
    (load w this = some store_t.monostate →
        assign_nullptr w this = some w ∧ ∀ v, assign_int w this v = some w) := by
  constructor
  · intro buf hl
    have h := release_not_dynamic hl (fun a h => by cases h)
    exact ⟨h, fun _ => h⟩
  · intro hl
    have h := release_not_dynamic hl (fun a h => by cases h)
    exact ⟨h, fun _ => h⟩

/-- Concrete instance for C12: reset of a handle that holds an inline payload of 2
bytes, and of an empty handle, next to a heap block. -/
theorem reset_keeps_inline_witness :
    assign_nullptr ⟨[block_t.live 0 big_payload],
        [some (store_t.LOCAL (small_buffer small_payload)), some store_t.monostate]⟩ 0
      = some ⟨[block_t.live 0 big_payload],
        [some (store_t.LOCAL (small_buffer small_payload)), some store_t.monostate]⟩ ∧
    assign_int ⟨[block_t.live 0 big_payload],
        [some (store_t.LOCAL (small_buffer small_payload)), some store_t.monostate]⟩ 1 0
      = some ⟨[block_t.live 0 big_payload],
        [some (store_t.LOCAL (small_buffer small_payload)), some store_t.monostate]⟩ :=
  ⟨((reset_keeps_inline ⟨[block_t.live 0 big_payload],
        [some (store_t.LOCAL (small_buffer small_payload)), some store_t.monostate]⟩ 0).1
      (small_buffer small_payload) rfl).1,
   ((reset_keeps_inline ⟨[block_t.live 0 big_payload],
        [some (store_t.LOCAL (small_buffer small_payload)), some store_t.monostate]⟩ 1).2
      rfl).2 0⟩

/-- C15. Assignment releases the old payload exactly once.  Let `d` and `s` be distinct
live handles, `d` holding a heap payload on block `x` with count `c`, `s` holding `src`,
which is not a pointer to `x`.  Then copy assignment `d = s` (when `src`, if it is a
pointer, points to a live block) and move assignment `d = std::move(s)` both return; in
both, `x` has been released exactly once (freed when `c = 0`, count `c - 1` otherwise), `d` holds
what `s` held, and every block other than `x` and the block of `s` is unchanged.  After
the copy `s` is unchanged and the count of its block is one more (when that is
representable in `size_t`); after the move the block of `s` is unchanged and `s` is empty
when it held a pointer and unchanged otherwise. -/
theorem assign_releases_old (w : world_t) (d s x c : Nat) (f : payload_t) (src : store_t)
    (hds : d ≠ s)
    (hd : load w d = some (store_t.DYNAMIC (some x)))
    (hx : w.heap[x]? = some (block_t.live c f))
    (hs : load w s = some src)
    (hsx : src ≠ store_t.DYNAMIC (some x)) :
    ((∀ y, src = store_t.DYNAMIC (some y) → ∃ n g, w.heap[y]? = some (block_t.live n g)) →
     ∃ w1, copy_assign w d s = some w1 ∧
      w1.heap[x]? = some (if c = 0 then block_t.freed else block_t.live (c - 1) f) ∧
      load w1 d = some src ∧
      load w1 s = some src ∧
      (∀ y n g, src = store_t.DYNAMIC (some y) → w.heap[y]? = some (block_t.live n g) →
        w1.heap[y]? = some (block_t.live ((n + 1) % 2 ^ 64) g) ∧
        (n + 1 < 2 ^ 64 → w1.heap[y]? = some (block_t.live (n + 1) g))) ∧
      (∀ b, b ≠ x → src ≠ store_t.DYNAMIC (some b) → w1.heap[b]? = w.heap[b]?) ∧
      w1.heap.length = w.heap.length) ∧
    (∃ w2, move_assign w d s = some w2 ∧
      w2.heap[x]? = some (if c = 0 then block_t.freed else block_t.live (c - 1) f) ∧
      load w2 d = some src ∧
      ((∃ p, src = store_t.DYNAMIC p) → load w2 s = some store_t.monostate) ∧
      ((∀ p, src ≠ store_t.DYNAMIC p) → load w2 s = some src) ∧
      (∀ b, b ≠ x → w2.heap[b]? = w.heap[b]?) ∧
      w2.heap.length = w.heap.length) := by
  have hdl := load_lt hd
  have hsl := load_lt hs
  have hxl := heap_lt_of_some hx
  have hr := release_dynamic hd hx
  have hs0 : load (world_t.mk
      (w.heap.set x (if c = 0 then block_t.freed else block_t.live (c - 1) f)) w.objs) s
      = some src := hs
  have hd1 : load (assign_store (world_t.mk
      (w.heap.set x (if c = 0 then block_t.freed else block_t.live (c - 1) f)) w.objs) d src) d
      = some src := load_assign_store_self _ hdl
  have hs1 : load (assign_store (world_t.mk
      (w.heap.set x (if c = 0 then block_t.freed else block_t.live (c - 1) f)) w.objs) d src) s
      = some src := by
    rw [load_assign_store_of_ne _ hds]
    exact hs
  constructor
  · -- copy assignment
    intro hlive
    by_cases hdyn : ∃ y, src = store_t.DYNAMIC (some y)
    · obtain ⟨y, rfl⟩ := hdyn
      obtain ⟨n, g, hy⟩ := hlive y rfl
      have hyl := heap_lt_of_some hy
      have hxy : x ≠ y := fun h => hsx (by rw [h])
      have hy1 : (assign_store (world_t.mk
          (w.heap.set x (if c = 0 then block_t.freed else block_t.live (c - 1) f)) w.objs)
          d (store_t.DYNAMIC (some y))).heap[y]? = some (block_t.live n g) := by
        simp only [assign_store]
        rw [List.getElem?_set_ne hxy]
        exact hy
      have hret := retain_dynamic hd1 hy1
      refine ⟨world_t.mk
          ((w.heap.set x (if c = 0 then block_t.freed else block_t.live (c - 1) f)).set y
            (block_t.live ((n + 1) % SIZE_T_RANGE) g))
          (w.objs.set d (some (store_t.DYNAMIC (some y)))),
        by simp only [copy_assign, copy_body, hr, hs0]; exact hret,
        ?_, hd1, hs1, ?_, ?_, ?_⟩
      · simp only []
        rw [List.getElem?_set_ne (Ne.symm hxy)]
        exact List.getElem?_set_self hxl
      · intro y' n' g' hy' hb'
        cases hy'
        rw [hy] at hb'
        cases hb'
        have h1 : ((w.heap.set x
            (if c = 0 then block_t.freed else block_t.live (c - 1) f)).set y
              (block_t.live ((n + 1) % SIZE_T_RANGE) g))[y]?
            = some (block_t.live ((n + 1) % 2 ^ 64) g) :=
          List.getElem?_set_self (by simpa using hyl)
        refine ⟨h1, ?_⟩
        intro hn
        rw [h1, Nat.mod_eq_of_lt hn]
      · intro b hbx hby
        have hyb : y ≠ b := fun h => hby (by rw [h])
        simp only []
        rw [List.getElem?_set_ne hyb, List.getElem?_set_ne (Ne.symm hbx)]
      · simp
    · have hnd : ∀ y, src ≠ store_t.DYNAMIC (some y) := fun y h => hdyn ⟨y, h⟩
      have hret := retain_not_dynamic hd1 hnd
      refine ⟨assign_store (world_t.mk
          (w.heap.set x (if c = 0 then block_t.freed else block_t.live (c - 1) f)) w.objs)
          d src,
        by simp only [copy_assign, copy_body, hr, hs0]; exact hret,
        ?_, hd1, hs1, ?_, ?_, ?_⟩
      · exact List.getElem?_set_self hxl
      · intro y n g hy _
        exact absurd hy (hnd y)
      · intro b hbx _
        exact List.getElem?_set_ne (Ne.symm hbx)
      · simp [assign_store]
  · -- move assignment
    refine ⟨_, move_assign_eq hr rfl hs hdl, ?_, ?_, ?_, ?_, ?_, ?_⟩
    · cases src <;> exact List.getElem?_set_self hxl
    · cases src with
      | monostate => exact hd1
      | LOCAL buf => exact hd1
      | DYNAMIC p =>
        simp only []
        rw [load_assign_store_of_ne _ (Ne.symm hds)]
        exact hd1
    · rintro ⟨p, rfl⟩
      simp only []
      exact load_assign_store_self _ (by simpa [assign_store] using hsl)
    · intro hnd
      cases src with
      | monostate => exact hs1
      | LOCAL buf => exact hs1
      | DYNAMIC p => exact absurd rfl (hnd p)
    · intro b hbx
      cases src <;> exact List.getElem?_set_ne (Ne.symm hbx)
    · cases src <;> simp [assign_store]

/-- Concrete instance for C15: `d` is the sole owner of block 0, `s` is the sole owner
of block 1; after `d = s` block 0 is freed and block 1 has count 1, after
`d = std::move(s)` block 0 is freed and block 1 still has count 0. -/
theorem assign_releases_old_witness :
    (∃ w1, copy_assign ⟨[block_t.live 0 big_payload, block_t.live 0 big_payload],
        [some (store_t.DYNAMIC (some 0)), some (store_t.DYNAMIC (some 1))]⟩ 0 1 = some w1 ∧
      w1.heap[0]? = some block_t.freed ∧
      w1.heap[1]? = some (block_t.live 1 big_payload) ∧
      load w1 0 = some (store_t.DYNAMIC (some 1))) ∧
    (∃ w2, move_assign ⟨[block_t.live 0 big_payload, block_t.live 0 big_payload],
        [some (store_t.DYNAMIC (some 0)), some (store_t.DYNAMIC (some 1))]⟩ 0 1 = some w2 ∧
      w2.heap[0]? = some block_t.freed ∧
      w2.heap[1]? = some (block_t.live 0 big_payload) ∧
      load w2 0 = some (store_t.DYNAMIC (some 1)) ∧
      load w2 1 = some store_t.monostate) := by
  have h := assign_releases_old ⟨[block_t.live 0 big_payload, block_t.live 0 big_payload],
        [some (store_t.DYNAMIC (some 0)), some (store_t.DYNAMIC (some 1))]⟩
      0 1 0 0 big_payload (store_t.DYNAMIC (some 1)) (by decide) rfl rfl rfl
      (fun h => by cases h)
  obtain ⟨hcopy, ⟨w2, b1, b2, b3, b4, _, b6, _⟩⟩ := h
  obtain ⟨w1, a1, a2, a3, _, a5, _⟩ :=
    hcopy (fun y hy => by cases hy; exact ⟨0, big_payload, rfl⟩)
  refine ⟨⟨w1, a1, a2, ?_, a3⟩, ⟨w2, b1, b2, ?_, b3, b4 ⟨_, rfl⟩⟩⟩
  · exact ((a5 1 0 big_payload rfl rfl).2 (by decide))
  · rw [b6 1 (by decide)]
    rfl

theorem set_of_getElem? {α : Type} {l : List α} {i : Nat} {x : α} (h : l[i]? = some x) :
    l.set i x = l := by
  apply List.ext_getElem?
  intro j
  by_cases hij : i = j
  · subst hij
    rw [List.getElem?_set_self (by
      by_contra hn
      rw [List.getElem?_eq_none (Nat.le_of_not_lt hn)] at h
      cases h), h]
  · rw [List.getElem?_set_ne hij]

/-- Self copy-assignment of a handle that shares its block (count `c > 0`, a `size_t`),
of an inline handle and of an empty handle gives back the world it started from. -/
theorem self_copy_assign_shared (w : world_t) (h : Nat) :
    (∀ a c f, load w h = some (store_t.DYNAMIC (some a)) →
        w.heap[a]? = some (block_t.live c f) → 0 < c → c < 2 ^ 64 →
        copy_assign w h h = some w) ∧
    (∀ st, load w h = some st → (∀ a, st ≠ store_t.DYNAMIC (some a)) →
        copy_assign w h h = some w) := by
  constructor
  · intro a c f hl hb hc hc64
    have ha := heap_lt_of_some hb
    have hh := load_lt hl
    have hc0 : ¬ c = 0 := by omega
    have hr := release_dynamic hl hb
    simp only [hc0, if_false] at hr
    have hobjs : w.objs.set h (some (store_t.DYNAMIC (some a))) = w.objs :=
      set_of_getElem? (load_eq_some.mp hl)
    have hl1 : load (world_t.mk (w.heap.set a (block_t.live (c - 1) f)) w.objs) h
        = some (store_t.DYNAMIC (some a)) := hl
    have hb1 : (world_t.mk (w.heap.set a (block_t.live (c - 1) f)) w.objs).heap[a]?
        = some (block_t.live (c - 1) f) := List.getElem?_set_self ha
    have hret := retain_dynamic hl1 hb1
    have hcc : (c - 1 + 1) % SIZE_T_RANGE = c := by
      have : c - 1 + 1 = c := by omega
      rw [this]
      exact Nat.mod_eq_of_lt hc64
    simp only [copy_assign, copy_body, hr, hl1, assign_store, hobjs]
    rw [hret, hcc]
    simp only [List.set_set]
    rw [set_of_getElem? hb]
  · intro st hl hs
    have hr := release_not_dynamic hl hs
    have hobjs : w.objs.set h (some st) = w.objs := set_of_getElem? (load_eq_some.mp hl)
    simp only [copy_assign, copy_body, hr, hl, assign_store, hobjs]
    exact retain_not_dynamic hl hs

/-- C16, evaluated on a sole owner: after `init` with a heap payload the handle owns a
block with count 0; the copy assignment `h = h` first releases the block, which frees
it, and then increments the count of the freed block through the pointer it has just
copied from itself: the assignment has undefined behaviour and is not the identity. -/
theorem self_copy_assign_sole_owner :
    run world_t.empty [op_t.default_ctor, op_t.init 0 big_payload]
      = some ⟨[block_t.live 0 big_payload], [some (store_t.DYNAMIC (some 0))]⟩ ∧
    release ⟨[block_t.live 0 big_payload], [some (store_t.DYNAMIC (some 0))]⟩ 0
      = some ⟨[block_t.freed], [some (store_t.DYNAMIC (some 0))]⟩ ∧
    assign_store ⟨[block_t.freed], [some (store_t.DYNAMIC (some 0))]⟩ 0 (store_t.DYNAMIC (some 0))
      = ⟨[block_t.freed], [some (store_t.DYNAMIC (some 0))]⟩ ∧
    retain ⟨[block_t.freed], [some (store_t.DYNAMIC (some 0))]⟩ 0 = none ∧
    copy_assign ⟨[block_t.live 0 big_payload], [some (store_t.DYNAMIC (some 0))]⟩ 0 0 = none ∧
    run world_t.empty [op_t.default_ctor, op_t.init 0 big_payload, op_t.copy_assign 0 0]
      = none :=
  ⟨rfl, rfl, rfl, rfl, rfl, rfl⟩

/-! ## No handle in the `DYNAMIC` state holds a null pointer -/

theorem load_mem {w : world_t} {i : Nat} {st : store_t} (h : load w i = some st) :
    some st ∈ w.objs :=
  List.getElem?_mem (load_eq_some.mp h)

theorem retain_objs {w w1 : world_t} {this : Nat} (h : retain w this = some w1) :
    w1.objs = w.objs := by
  unfold retain at h
  split at h
  · cases h
  · split at h
    · cases h
      rfl
    · cases h
  · cases h
    rfl

theorem assign_store_nonnull {w : world_t} {i : Nat} {st : store_t}
    (hw : some (store_t.DYNAMIC none) ∉ w.objs) (hst : st ≠ store_t.DYNAMIC none) :
    some (store_t.DYNAMIC none) ∉ (assign_store w i st).objs := by
  intro hm
  rcases List.mem_or_eq_of_mem_set hm with h1 | h1
  · exact hw h1
  · cases h1
    exact hst rfl

theorem new_object_nonnull {w : world_t} (hw : some (store_t.DYNAMIC none) ∉ w.objs) :
    some (store_t.DYNAMIC none) ∉ (new_object w).objs := by
  intro hm
  simp only [new_object, List.mem_append, List.mem_singleton] at hm
  rcases hm with h1 | h1
  · exact hw h1
  · cases h1

theorem copy_body_nonnull {w w1 : world_t} {this s : Nat}
    (hw : some (store_t.DYNAMIC none) ∉ w.objs) (h : copy_body w this s = some w1) :
    some (store_t.DYNAMIC none) ∉ w1.objs := by
  unfold copy_body at h
  split at h
  · cases h
  · rename_i w0 hr
    have hobjs := (release_some hr).2.1
    split at h
    · cases h
    · rename_i src hsrc
      have hw0 : some (store_t.DYNAMIC none) ∉ w0.objs := by rw [hobjs]; exact hw
      have hsrc1 : src ≠ store_t.DYNAMIC none := by
        intro hs
        rw [hs] at hsrc
        exact hw0 (load_mem hsrc)
      rw [retain_objs h]
      exact assign_store_nonnull hw0 hsrc1

theorem move_body_nonnull {w w1 : world_t} {this s : Nat}
    (hw : some (store_t.DYNAMIC none) ∉ w.objs) (h : move_body w this s = some w1) :
    some (store_t.DYNAMIC none) ∉ w1.objs := by
  unfold move_body at h
  split at h
  · cases h
  · rename_i w0 hr
    have hobjs := (release_some hr).2.1
    split at h
    · cases h
    · rename_i src hsrc
      have hw0 : some (store_t.DYNAMIC none) ∉ w0.objs := by rw [hobjs]; exact hw
      have hsrc1 : src ≠ store_t.DYNAMIC none := by
        intro hs
        rw [hs] at hsrc
        exact hw0 (load_mem hsrc)
      have hw2 := assign_store_nonnull (i := this) hw0 hsrc1
      simp only [] at h
      split at h
      · cases h
      · cases h
        rw [assign_store_twice]
        exact assign_store_nonnull hw2 (fun h => by cases h)
      · cases h
        exact hw2

theorem step_nonnull {w w1 : world_t} (op : op_t)
    (hw : some (store_t.DYNAMIC none) ∉ w.objs) (h : step w op = some w1) :
    some (store_t.DYNAMIC none) ∉ w1.objs := by
  cases op with
  | default_ctor =>
    simp only [step, default_ctor] at h
    cases h
    exact new_object_nonnull hw
  | init this f =>
    simp only [step, init] at h
    split at h
    · cases h
    · rename_i w0 hr
      have hobjs := (release_some hr).2.1
      have hw0 : some (store_t.DYNAMIC none) ∉ w0.objs := by rw [hobjs]; exact hw
      split at h
      · cases h
        exact assign_store_nonnull (w := w0) (i := this) hw0 (fun h => by cases h)
      · cases h
        exact assign_store_nonnull hw0 (fun h => by cases h)
  | copy_ctor s =>
    simp only [step, copy_ctor] at h
    split at h
    · cases h
    · exact copy_body_nonnull (new_object_nonnull hw) h
  | move_ctor s =>
    simp only [step, move_ctor] at h
    split at h
    · cases h
    · exact move_body_nonnull (new_object_nonnull hw) h
  | copy_assign this s => exact copy_body_nonnull hw h
  | move_assign this s => exact move_body_nonnull hw h
  | assign_nullptr this =>
    rw [(release_some h).2.1]
    exact hw
  | assign_int this v =>
    rw [(release_some h).2.1]
    exact hw
  | dtor this =>
    simp only [step, dtor] at h
    split at h
    · cases h
    · rename_i w0 hr
      cases h
      intro hm
      rcases List.mem_or_eq_of_mem_set hm with h1 | h1
      · rw [(release_some hr).2.1] at h1
        exact hw h1
      · cases h1

theorem run_nonnull (ops : List op_t) :
    ∀ (w w1 : world_t), some (store_t.DYNAMIC none) ∉ w.objs → run w ops = some w1 →
      some (store_t.DYNAMIC none) ∉ w1.objs := by
  induction ops with
  | nil =>
    intro w w1 hw hr
    cases hr
    exact hw
  | cons op ops ih =>
    intro w w1 hw hr
    simp only [run] at hr
    split at hr
    · cases hr
    · rename_i w2 hs
      exact ih w2 w1 (step_nonnull op hw hs) hr

/-- C17. A handle in the `DYNAMIC` state never holds a null pointer: in every world
reached from the empty world by default constructions, `init`, copy and move
construction, copy and move assignment, resets and destructions, every live handle whose
variant is in the `DYNAMIC` alternative holds a non-null pointer.  Hence `destructor`,
which is handed the pointer of the handle, never takes its `p_store == nullptr` return,
and the store that a copy operation assigns after its opening release statement, on
which it then tests `*p_store != nullptr`, is never a null pointer. -/
theorem dynamic_never_null (ops : List op_t) (w : world_t)
    (hr : run world_t.empty ops = some w) :
    (∀ i p, load w i = some (store_t.DYNAMIC p) → ∃ a, p = some a) ∧
    (∀ this s w0 src, release w this = some w0 → load w0 s = some src →
      src ≠ store_t.DYNAMIC none) := by
  have hw := run_nonnull ops world_t.empty w (by simp [world_t.empty]) hr
  constructor
  · intro i p hl
    cases p with
    | none => exact absurd (load_mem hl) hw
    | some a => exact ⟨a, rfl⟩
  · intro this s w0 src hrel hl hsrc
    have hm := load_mem hl
    rw [(release_some hrel).2.1, hsrc] at hm
    exact hw hm

/-- Concrete instance for C17: after `init` with a heap payload, a copy, a reset of the
copy and a move construction from the first handle, the `DYNAMIC` handles hold the
address of block 0. -/
theorem dynamic_never_null_witness :
    run world_t.empty
        [op_t.default_ctor, op_t.init 0 big_payload, op_t.copy_ctor 0, op_t.assign_nullptr 1,
         op_t.move_ctor 0]
      = some ⟨[block_t.live 0 big_payload],
          [some store_t.monostate, some (store_t.DYNAMIC (some 0)),
           some (store_t.DYNAMIC (some 0))]⟩ ∧
    ∀ i p, load ⟨[block_t.live 0 big_payload],
          [some store_t.monostate, some (store_t.DYNAMIC (some 0)),
           some (store_t.DYNAMIC (some 0))]⟩ i = some (store_t.DYNAMIC p) → ∃ a, p = some a :=
  ⟨rfl, (dynamic_never_null
      [op_t.default_ctor, op_t.init 0 big_payload, op_t.copy_ctor 0, op_t.assign_nullptr 1,
       op_t.move_ctor 0] _ rfl).1⟩

end signaler.detail

namespace signals

/-! ## Tokens of a registry -/

theorem tokens_ok_empty : tokens_ok signal_t.empty := by
  simp [tokens_ok, tokens, signal_t.empty]

theorem tokens_ok_connect {r : signal_t} (sl : slot_t) (h : tokens_ok r) :
    tokens_ok (connect r sl).1 := by
  obtain ⟨h1, h2⟩ := h
  unfold tokens at h1 h2
  constructor
  · simp only [tokens, connect, List.map_append, List.map_cons, List.map_nil]
    rw [List.pairwise_append]
    refine ⟨h1, by simp, ?_⟩
    intro a ha b hb
    simp only [List.mem_singleton] at hb
    rw [hb]
    exact h2 a ha
  · intro t ht
    simp only [tokens, connect, List.map_append, List.map_cons, List.map_nil,
      List.mem_append, List.mem_singleton] at ht
    simp only [connect]
    rcases ht with ht | ht
    · have := h2 t ht
      omega
    · omega

theorem tokens_disconnect_sublist (r : signal_t) (token : Nat) :
    (tokens (disconnect r token)).Sublist (tokens r) :=
  (List.eraseP_sublist r.slots).map Prod.fst

theorem tokens_ok_disconnect {r : signal_t} (token : Nat) (h : tokens_ok r) :
    tokens_ok (disconnect r token) := by
  obtain ⟨h1, h2⟩ := h
  have hs := tokens_disconnect_sublist r token
  exact ⟨h1.sublist hs, fun t ht => h2 t (hs.subset ht)⟩

theorem tokens_ok_run_ops (ops : List reg_op_t) :
    ∀ r, tokens_ok r → tokens_ok (run_ops r ops) := by
  induction ops with
  | nil =>
    intro r h
    exact h
  | cons op ops ih =>
    intro r h
    cases op with
    | connect sl => exact ih _ (tokens_ok_connect sl h)
    | disconnect token => exact ih _ (tokens_ok_disconnect token h)

/-- In a registry whose tokens are in order, a slot is the only one with its token. -/
theorem token_unique {r : signal_t} (h : tokens_ok r) {token : Nat} {sl : slot_t}
    {pre post : List (Nat × slot_t)} (hs : r.slots = pre ++ (token, sl) :: post) :
    (∀ e, e ∈ pre → e.1 ≠ token) ∧ (∀ e, e ∈ post → e.1 ≠ token) := by
  have h1 := h.1
  simp only [tokens, hs, List.map_append, List.map_cons] at h1
  rw [List.pairwise_append] at h1
  obtain ⟨_, h3, h4⟩ := h1
  rw [List.pairwise_cons] at h3
  constructor
  · intro e he heq
    have := h4 e.1 (List.mem_map_of_mem Prod.fst he) token (List.mem_cons_self _ _)
    omega
  · intro e he heq
    have := h3.1 e.1 (List.mem_map_of_mem Prod.fst he)
    omega

/-- Removing the slot of a token that occurs once. -/
theorem disconnect_split {r : signal_t} {token : Nat} {sl : slot_t}
    {pre post : List (Nat × slot_t)} (hs : r.slots = pre ++ (token, sl) :: post)
    (hpre : ∀ e, e ∈ pre → e.1 ≠ token) :
    (disconnect r token).slots = pre ++ post := by
  simp only [disconnect, hs]
  rw [List.eraseP_append_right _ (by
    intro e he
    simpa using hpre e he)]
  rw [List.eraseP_cons_of_pos (by simp)]

/-- Disconnecting a token that no slot has. -/
theorem disconnect_unknown {r : signal_t} {token : Nat}
    (h : ∀ e, e ∈ r.slots → e.1 ≠ token) : disconnect r token = r := by
  simp only [disconnect]
  rw [List.eraseP_of_forall_not (by
    intro e he
    simpa using h e he)]

/-- After a disconnect no slot has the token, in a registry whose tokens are in order. -/
theorem disconnect_absent {r : signal_t} (h : tokens_ok r) (token : Nat) :
    ∀ e, e ∈ (disconnect r token).slots → e.1 ≠ token := by
  by_cases hex : ∃ e, e ∈ r.slots ∧ e.1 = token
  · obtain ⟨e, he, het⟩ := hex
    obtain ⟨pre, post, hs⟩ := List.append_of_mem he
    obtain ⟨t, sl⟩ := e
    simp only at het
    subst het
    obtain ⟨h1, h2⟩ := token_unique h hs
    rw [disconnect_split hs h1]
    intro e1 he1
    rcases List.mem_append.mp he1 with h3 | h3
    · exact h1 e1 h3
    · exact h2 e1 h3
  · have hno : ∀ e, e ∈ r.slots → e.1 ≠ token := fun e he heq => hex ⟨e, he, heq⟩
    rw [disconnect_unknown hno]
    exact hno
theorem next_token_le_run_ops (ops : List reg_op_t) :
    ∀ r, r.next_token ≤ (run_ops r ops).next_token := by
  induction ops with
  | nil =>
    intro r
    exact Nat.le_refl _
  | cons op ops ih =>
    intro r
    cases op with
    | connect sl =>
      have := ih (connect r sl).1
      simp only [connect] at this
      simp only [run_ops, connect]
      omega
    | disconnect token => exact ih (disconnect r token)

/-- A slot stays in the registry as long as its token is not disconnected. -/
theorem slot_kept (token : Nat) (sl : slot_t) (ops : List reg_op_t) :
    ∀ r, (token, sl) ∈ r.slots → reg_op_t.disconnect token ∉ ops →
      (token, sl) ∈ (run_ops r ops).slots := by
  induction ops with
  | nil =>
    intro r h _
    exact h
  | cons op ops ih =>
    intro r h hno
    have hno1 : reg_op_t.disconnect token ∉ ops := fun hm => hno (List.mem_cons_of_mem _ hm)
    cases op with
    | connect sl1 =>
      apply ih _ _ hno1
      simp only [connect]
      exact List.mem_append_left _ h
    | disconnect t1 =>
      have hne : t1 ≠ token := by
        intro heq
        apply hno
        rw [heq]
        exact List.mem_cons_self _ _
      apply ih _ _ hno1
      simp only [disconnect]
      rw [List.mem_eraseP_of_neg (by simpa using Ne.symm hne)]
      exact h

/-- A token that was handed out and has no slot any more never gets a slot again. -/
theorem token_stays_absent (token : Nat) (ops : List reg_op_t) :
    ∀ r, token < r.next_token → (∀ e, e ∈ r.slots → e.1 ≠ token) →
      ∀ e, e ∈ (run_ops r ops).slots → e.1 ≠ token := by
  induction ops with
  | nil =>
    intro r _ h
    exact h
  | cons op ops ih =>
    intro r hlt h
    cases op with
    | connect sl =>
      apply ih
      · simp only [connect]
        omega
      · intro e he
        simp only [connect, List.mem_append, List.mem_singleton] at he
        rcases he with he | he
        · exact h e he
        · rw [he]
          simp only
          omega
    | disconnect t1 =>
      apply ih
      · exact hlt
      · intro e he
        exact h e (List.mem_of_mem_eraseP he)

/-- Once a token has been disconnected, no slot has it, whatever calls follow. -/
theorem token_removed (token : Nat) (ops : List reg_op_t) :
    ∀ r, tokens_ok r → token < r.next_token → reg_op_t.disconnect token ∈ ops →
      ∀ e, e ∈ (run_ops r ops).slots → e.1 ≠ token := by
  induction ops with
  | nil =>
    intro r _ _ hm
    cases hm
  | cons op ops ih =>
    intro r hok hlt hm
    cases op with
    | connect sl =>
      have hm1 : reg_op_t.disconnect token ∈ ops := by
        rcases List.mem_cons.mp hm with h | h
        · cases h
        · exact h
      apply ih _ (tokens_ok_connect sl hok) _ hm1
      simp only [connect]
      omega
    | disconnect t1 =>
      by_cases heq : t1 = token
      · subst heq
        exact token_stays_absent t1 ops _ hlt (disconnect_absent hok t1)
      · have hm1 : reg_op_t.disconnect token ∈ ops := by
          rcases List.mem_cons.mp hm with h | h
          · cases h
            exact absurd rfl heq
          · exact h
        exact ih _ (tokens_ok_disconnect t1 hok) hlt hm1

/-- C14. Disconnect by token, on the registry modelled from the spec.  Let a registry be
built from the empty registry by any calls `ops1`, let `connect` append the slot `sl`
and return `token`, and let any calls `ops2` follow.  If `ops2` does not disconnect
`token`, then `disconnect(token)` removes exactly that slot: the slot sequence is
`pre ++ (token, sl) :: post` and becomes `pre ++ post`, the other slots in their
connection order.  If `ops2` has disconnected `token` already, `disconnect(token)`
leaves the registry unchanged.  For every registry built from the empty one and every
token: a token that no slot has (unknown or already removed) leaves the registry
unchanged, a second `disconnect` of the same token changes nothing, and `disconnect`
never changes the token counter. -/
theorem disconnect_by_token (ops ops1 ops2 : List reg_op_t) (sl : slot_t) (token : Nat) :
    ((connect (run_ops signal_t.empty ops1) sl).2 = token →
      reg_op_t.disconnect token ∉ ops2 →
      ∃ pre post,
        (run_ops (connect (run_ops signal_t.empty ops1) sl).1 ops2).slots
          = pre ++ (token, sl) :: post ∧
        (disconnect (run_ops (connect (run_ops signal_t.empty ops1) sl).1 ops2) token).slots
          = pre ++ post ∧
        (∀ e, e ∈ pre ++ post → e.1 ≠ token)) ∧
    ((connect (run_ops signal_t.empty ops1) sl).2 = token →
      reg_op_t.disconnect token ∈ ops2 →
      disconnect (run_ops (connect (run_ops signal_t.empty ops1) sl).1 ops2) token
        = run_ops (connect (run_ops signal_t.empty ops1) sl).1 ops2) ∧
    ((∀ e, e ∈ (run_ops signal_t.empty ops).slots → e.1 ≠ token) →
      disconnect (run_ops signal_t.empty ops) token = run_ops signal_t.empty ops) ∧
    disconnect (disconnect (run_ops signal_t.empty ops) token) token
      = disconnect (run_ops signal_t.empty ops) token ∧
    (disconnect (run_ops signal_t.empty ops) token).next_token
      = (run_ops signal_t.empty ops).next_token := by
  have hok1 : tokens_ok (connect (run_ops signal_t.empty ops1) sl).1 :=
    tokens_ok_connect sl (tokens_ok_run_ops ops1 _ tokens_ok_empty)
  have hok2 := tokens_ok_run_ops ops2 _ hok1
  have hok := tokens_ok_run_ops ops _ tokens_ok_empty
  refine ⟨?_, ?_, ?_, ?_, rfl⟩
  · intro ht hno
    have hmem : (token, sl) ∈ (connect (run_ops signal_t.empty ops1) sl).1.slots := by
      rw [← ht]
      simp [connect]
    have hkept := slot_kept token sl ops2 _ hmem hno
    obtain ⟨pre, post, hs⟩ := List.append_of_mem hkept
    obtain ⟨h1, h2⟩ := token_unique hok2 hs
    refine ⟨pre, post, hs, disconnect_split hs h1, ?_⟩
    intro e he
    rcases List.mem_append.mp he with h3 | h3
    · exact h1 e h3
    · exact h2 e h3
  · intro ht hm
    apply disconnect_unknown
    apply token_removed token ops2 _ hok1 _ hm
    rw [← ht]
    simp [connect]
  · intro h
    exact disconnect_unknown h
  · exact disconnect_unknown (disconnect_absent hok token)

/-- Concrete instance for C14: two slots are connected (tokens 0 and 1); disconnecting
token 0 leaves the second slot, and disconnecting token 0 again changes nothing. -/
theorem disconnect_by_token_witness :
    (∃ pre post,
      (run_ops (connect (run_ops signal_t.empty []) (slot_t.callable 10)).1
        [reg_op_t.connect (slot_t.callable 11)]).slots
        = pre ++ (0, slot_t.callable 10) :: post ∧
      (disconnect (run_ops (connect (run_ops signal_t.empty []) (slot_t.callable 10)).1
        [reg_op_t.connect (slot_t.callable 11)]) 0).slots = pre ++ post) ∧
    disconnect (run_ops (connect (run_ops signal_t.empty []) (slot_t.callable 10)).1
        [reg_op_t.connect (slot_t.callable 11), reg_op_t.disconnect 0]) 0
      = run_ops (connect (run_ops signal_t.empty []) (slot_t.callable 10)).1
        [reg_op_t.connect (slot_t.callable 11), reg_op_t.disconnect 0] ∧
    disconnect (run_ops signal_t.empty [reg_op_t.connect (slot_t.callable 10)]) 5
      = run_ops signal_t.empty [reg_op_t.connect (slot_t.callable 10)] := by
  refine ⟨?_, ?_, ?_⟩
  · obtain ⟨pre, post, h1, h2, _⟩ :=
      (disconnect_by_token [] [] [reg_op_t.connect (slot_t.callable 11)]
        (slot_t.callable 10) 0).1 rfl (by decide)
    exact ⟨pre, post, h1, h2⟩
  · exact (disconnect_by_token [] []
        [reg_op_t.connect (slot_t.callable 11), reg_op_t.disconnect 0]
        (slot_t.callable 10) 0).2.1 rfl (by decide)
  · exact (disconnect_by_token [reg_op_t.connect (slot_t.callable 10)] [] []
        slot_t.empty 5).2.2.1 (by decide)

/-! ## Chained registries -/

/-- The chain of `main.cpp`: `signal_int1` (registry 0) has the slot `A::foo1` (slot 1),
`signal_to_signal` (1) connects `signal_int1`, `signal_to_signal1` (2) connects
`signal_to_signal`, `signal_to_signal2` (3) connects `signal_to_signal1`; the call
`signal_to_signal2(1111111)` reaches `A::foo1`, and after
`signal_to_signal2.disconnect(connection)` it reaches nothing. -/
theorem main_chain :
    invoke (connect_at (connect_at (connect_at (connect_at system_t.empty
        0 (slot_t.callable 1)).1 1 (slot_t.registry 0)).1 2 (slot_t.registry 1)).1
        3 (slot_t.registry 2)).1 4 3 1111111 = [(1, 1111111)] ∧
    invoke (disconnect_at (connect_at (connect_at (connect_at (connect_at system_t.empty
        0 (slot_t.callable 1)).1 1 (slot_t.registry 0)).1 2 (slot_t.registry 1)).1
        3 (slot_t.registry 2)).1 3 0) 4 3 1111111 = [] :=
  ⟨rfl, rfl⟩

end signals
